import Mathlib

/-!
Shallow embedding of the delivery-route planning system:
city graph, A* path search, capacity-aware route cost models,
greedy VRP planner, Monte Carlo grouping planner, traffic simulator.

Modelling conventions:
* Python floats are modelled as exact rationals (`ℚ`); `float("inf")` is
  modelled as `⊤` in `WithTop ℚ`.
* Python dicts are modelled as insertion-ordered association lists with
  python `d[k] = v` semantics (`dinsert`: replace in place, else append).
* Python runtime errors (KeyError, StopIteration, a while loop that does
  not terminate) are modelled as `Option.none`; loops whose iteration
  count is not structurally bounded take a fuel parameter.
* `random.Random` is external library state; it is modelled as a stream
  of natural-number draws (for `_randbelow`-based methods) plus a stream
  of rational gaussian draws, together with consumption positions.
* `math.hypot`, and hence `CityGraph.heuristic_time`, is real-valued
  (square roots); since A* only consumes the heuristic through
  comparisons, the A* embedding takes the heuristic as an explicit
  rational-valued parameter, and the concrete graphs used in theorems
  come with proofs that `heuristic_time` agrees with the parameter.
-/

/-- Python-dict lookup on an insertion-ordered association list. -/
def dlookup {K V : Type} [DecidableEq K] : List (K × V) → K → Option V
  | [], _ => none
  | (k, v) :: rest, key => if k = key then some v else dlookup rest key

/-- Python-dict assignment `d[k] = v`: replace the value in place if the key
exists, otherwise append the new binding at the end. -/
def dinsert {K V : Type} [DecidableEq K] : List (K × V) → K → V → List (K × V)
  | [], key, v => [(key, v)]
  | (k, w) :: rest, key, v =>
    if k = key then (k, v) :: rest else (k, w) :: dinsert rest key v

/-- The keys of an association list, in order. -/
def dKeys {K V : Type} (d : List (K × V)) : List K := d.map Prod.fst

/-- Python's binary `max` (ties keep the first argument); written as an
explicit comparison so that it evaluates inside the kernel. -/
def pymax {A : Type} [LT A] [DecidableRel ((· < ·) : A → A → Prop)] (a b : A) : A :=
  if a < b then b else a

/-! ## city/graph.py -/

/-- Node identifiers are python strings. -/
abbrev NodeId := String

/-- A graph node with 2D coordinates. -/
structure Node where
  id : NodeId
  x : ℚ
  y : ℚ
  deriving DecidableEq

/-- A directed edge with physical length (metres) and speed limit (m/s). -/
structure Edge where
  src : NodeId
  dst : NodeId
  length : ℚ
  speed_limit : ℚ
  deriving DecidableEq

/-- `Edge.base_travel_time`: `length / speed_limit`. -/
def Edge.base_travel_time (e : Edge) : ℚ := e.length / e.speed_limit

/-- The city graph: node table and adjacency lists, both python dicts. -/
structure CityGraph where
  nodes : List (NodeId × Node)
  adj : List (NodeId × List Edge)
  deriving DecidableEq

/-- `CityGraph.neighbors`: `self.adj.get(node_id, [])`. -/
def CityGraph.neighbors (g : CityGraph) (node_id : NodeId) : List Edge :=
  (dlookup g.adj node_id).getD []

/-- `CityGraph.max_speed_limit`: maximum speed limit over all edges, floored
at 1.0. -/
def CityGraph.max_speed_limit (g : CityGraph) : ℚ :=
  g.adj.foldl (fun m kv => kv.2.foldl (fun m2 e => pymax m2 e.speed_limit) m) 1

/-- `math.hypot dx dy = sqrt (dx^2 + dy^2)`. -/
noncomputable def hypotR (dx dy : ℝ) : ℝ := Real.sqrt (dx ^ 2 + dy ^ 2)

/-- `CityGraph.heuristic_time`: euclidean distance over max speed; `none`
models the KeyError python raises when a node id is absent. -/
noncomputable def CityGraph.heuristic_time (g : CityGraph) (a b : NodeId) :
    Option ℝ :=
  match dlookup g.nodes a, dlookup g.nodes b with
  | some na, some nb =>
    some (hypotR ((na.x - nb.x : ℚ) : ℝ) ((na.y - nb.y : ℚ) : ℝ) /
      ((g.max_speed_limit : ℚ) : ℝ))
  | _, _ => none

/-! ## domain/models.py -/

/-- A vehicle: id, integer capacity, start node. -/
structure Vehicle where
  id : String
  capacity : ℤ
  start_node : NodeId
  deriving DecidableEq

/-- A delivery request: id, destination node, integer demand (default 1). -/
structure DeliveryRequest where
  id : String
  node : NodeId
  demand : ℤ := 1
  deriving DecidableEq

/-- A vehicle's route: the vehicle id and its ordered stop list. -/
structure VehicleRoute where
  vehicle_id : String
  stops : List DeliveryRequest := []
  deriving DecidableEq

/-- A VRP plan: depot plus a dict from vehicle id to route. -/
structure Plan where
  depot : NodeId
  routes : List (String × VehicleRoute)
  deriving DecidableEq

/-! ## algorithms/a_star.py

The python open set is a `heapq` binary heap of `(f_score, node)` tuples;
its only observable behaviour is that `heappop` removes a minimal tuple
under lexicographic comparison (tuples that compare equal are identical),
so the embedding keeps the open set as a list and pops a minimal element.
-/

/-- Lexicographic comparison of `(f_score, node)` tuples, as python compares
`Tuple[float, NodeId]`. -/
def tupLt (a b : ℚ × NodeId) : Prop :=
  a.1 < b.1 ∨ (a.1 = b.1 ∧ a.2 < b.2)

instance : DecidableRel tupLt := fun a b => by
  unfold tupLt; infer_instance

/-- Pop a minimal `(f_score, node)` tuple from the open set (the first
minimal element; equal tuples are indistinguishable). Returns the popped
tuple and the remaining list, or `none` when empty. -/
def popMin : List (ℚ × NodeId) → Option ((ℚ × NodeId) × List (ℚ × NodeId))
  | [] => none
  | x :: xs =>
    match popMin xs with
    | none => some (x, [])
    | some (m, rest) =>
      if tupLt m x then some (m, x :: rest) else some (x, xs)

/-- The mutable state of the A* search loop. -/
structure AState where
  open_set : List (ℚ × NodeId)
  came_from : NodeId → Option NodeId
  g_score : NodeId → Option ℚ
  closed : NodeId → Bool

/-- `_reconstruct_path`: follow `came_from` links from the goal back to the
start. Python appends then reverses; prepending builds the same list. The
fuel models the unbounded `while` loop, and `none` also covers the KeyError
on a missing predecessor. -/
def reconstruct_path (came_from : NodeId → Option NodeId) (start : NodeId) :
    Nat → NodeId → List NodeId → Option (List NodeId)
  | fuel, cur, acc =>
    if cur = start then some acc
    else
      match fuel, came_from cur with
      | 0, _ => none
      | _ + 1, none => none
      | fuel' + 1, some c => reconstruct_path came_from start fuel' c (c :: acc)

/-- One edge-relaxation pass over the neighbor list of `current`; returns
`none` on the (unreachable in practice) KeyError reading
`g_score[current]`. -/
def relaxEdges (h : NodeId → NodeId → ℚ) (goal current : NodeId) :
    List Edge → AState → Option AState
  | [], st => some st
  | e :: es, st =>
    match st.g_score current with
    | none => none
    | some gcur =>
      let neighbor := e.dst
      let tentative := gcur + e.base_travel_time
      match st.g_score neighbor with
      | some gnb =>
        if tentative ≥ gnb then relaxEdges h goal current es st
        else
          relaxEdges h goal current es
            { st with
              came_from := fun n => if n = neighbor then some current else st.came_from n
              g_score := fun n => if n = neighbor then some tentative else st.g_score n
              open_set := st.open_set ++ [(tentative + h neighbor goal, neighbor)] }
      | none =>
        relaxEdges h goal current es
          { st with
            came_from := fun n => if n = neighbor then some current else st.came_from n
            g_score := fun n => if n = neighbor then some tentative else st.g_score n
            open_set := st.open_set ++ [(tentative + h neighbor goal, neighbor)] }

/-- The A* main loop. Result: `none` models fuel exhaustion or a python
runtime error; `some none` is the "no path" `(None, inf)` return; and
`some (some (path, cost))` is a successful return. -/
def astarLoop (g : CityGraph) (h : NodeId → NodeId → ℚ) (start goal : NodeId) :
    Nat → AState → Option (Option (List NodeId × ℚ))
  | 0, _ => none
  | fuel + 1, st =>
    match popMin st.open_set with
    | none => some none
    | some ((_, current), rest) =>
      if st.closed current then astarLoop g h start goal fuel { st with open_set := rest }
      else
        match st.g_score current with
        | none => none
        | some gcur =>
          if current = goal then
            match reconstruct_path st.came_from start fuel goal [goal] with
            | none => none
            | some p => some (some (p, gcur))
          else
            let st1 : AState :=
              { st with open_set := rest, closed := fun n => n = current || st.closed n }
            match relaxEdges h goal current (g.neighbors current) st1 with
            | none => none
            | some st2 => astarLoop g h start goal fuel st2

/-- `astar_shortest_path`: classic A* over `base_travel_time` weights.
`some (some (path, cost))` is a found path, `some none` the `(None, inf)`
no-path return, `none` a crash / nontermination (fuel). -/
def astar_shortest_path (g : CityGraph) (h : NodeId → NodeId → ℚ)
    (start goal : NodeId) (fuel : Nat) : Option (Option (List NodeId × ℚ)) :=
  if start = goal then some (some ([start], 0))
  else
    astarLoop g h start goal fuel
      { open_set := [(0, start)]
        came_from := fun _ => none
        g_score := fun n => if n = start then some 0 else none
        closed := fun _ => false }

/-! ## algorithms/basic.py -/

/-- `PlanCost`: a plan together with its total time. -/
structure PlanCost where
  plan : Plan
  total_time : WithTop ℚ
  deriving DecidableEq

/-- The two `RuntimeError`s `GreedyVRPPlanner.build_plan` can raise. -/
inductive GreedyError where
  /-- "Request ... has demand ..., but no vehicle can carry it in one trip". -/
  | unplaceable (reqId : String) (demand : ℤ)
  /-- "Cannot build feasible greedy plan". -/
  | infeasible
  deriving DecidableEq

/-- Whether a `GreedyError` is the unplaceable-demand precondition error. -/
def GreedyError.isUnplaceable : GreedyError → Bool
  | .unplaceable _ _ => true
  | .infeasible => false

/-- The stop loop of `GreedyVRPPlanner._route_cost`, threading
`(t, cur, cap_left)`. Outer `none` is an A* fuel crash; inner `none` is an
early `return float("inf")` (demand ≤ 0 or unreachable leg). -/
def rcLoop (g : CityGraph) (h : NodeId → NodeId → ℚ) (depot : NodeId)
    (cap : ℤ) (fuel : Nat) :
    List DeliveryRequest → ℚ × NodeId × ℤ → Option (Option (ℚ × NodeId × ℤ))
  | [], st => some (some st)
  | req :: stops, (t, cur, cap_left) =>
    if req.demand ≤ 0 then some none
    else
      -- if there is no room for the next stop, first go home
      let afterReset : Option (Option (ℚ × NodeId)) :=
        if cap_left < req.demand then
          if cur ≠ depot then
            match astar_shortest_path g h cur depot fuel with
            | none => none
            | some none => some none
            | some (some (_, travel)) => some (some (t + travel, depot))
          else some (some (t, cur))
        else some (some (t, cur))
      match afterReset with
      | none => none
      | some none => some none
      | some (some (t1, cur1)) =>
        let cap1 : ℤ := if cap_left < req.demand then cap else cap_left
        -- drive to the stop
        match astar_shortest_path g h cur1 req.node fuel with
        | none => none
        | some none => some none
        | some (some (_, travel)) =>
          rcLoop g h depot cap fuel stops (t1 + travel, req.node, cap1 - req.demand)

/-- `GreedyVRPPlanner._route_cost`: cost of the full stop list with capacity
resets (multiple trips to the depot). `some ⊤` is `float("inf")`. -/
def route_cost (g : CityGraph) (h : NodeId → NodeId → ℚ) (vehicle : Vehicle)
    (stops : List DeliveryRequest) (depot : NodeId) (return_to_depot : Bool)
    (fuel : Nat) : Option (WithTop ℚ) :=
  if vehicle.capacity ≤ 0 then some ⊤
  else
    match rcLoop g h depot vehicle.capacity fuel stops (0, vehicle.start_node, vehicle.capacity) with
    | none => none
    | some none => some ⊤
    | some (some (t, cur, _)) =>
      if return_to_depot && cur ≠ depot then
        match astar_shortest_path g h cur depot fuel with
        | none => none
        | some none => some ⊤
        | some (some (_, travel)) => some ((t + travel : ℚ) : WithTop ℚ)
      else some ((t : ℚ) : WithTop ℚ)

/-- The safety check of `GreedyVRPPlanner.build_plan`: the first request (in
list order) whose demand exceeds every vehicle's capacity, if any. -/
def findUnplaceable (requests : List DeliveryRequest) (vehicles : List Vehicle) :
    Option DeliveryRequest :=
  requests.find? (fun req => vehicles.all (fun v => v.capacity < req.demand))

/-- The vehicle-level inner loop of the `best_choice` selection in
`GreedyVRPPlanner.build_plan`, for one candidate request `req`: skip
vehicles whose capacity is below the demand, cost the appended route, and
keep the strictly cheaper choice. Outer `none` is an A* fuel crash. -/
def greedySelectInner (g : CityGraph) (h : NodeId → NodeId → ℚ) (depot : NodeId)
    (fuel : Nat) (routes : List (String × VehicleRoute)) (req : DeliveryRequest) :
    List Vehicle → Option (String × DeliveryRequest × WithTop ℚ) →
    Option (Option (String × DeliveryRequest × WithTop ℚ))
  | [], b => some b
  | v :: vs, b =>
    if v.capacity < req.demand then greedySelectInner g h depot fuel routes req vs b
    else
      match dlookup routes v.id with
      | none => none
      | some route =>
        match route_cost g h v (route.stops ++ [req]) depot true fuel with
        | none => none
        | some cost =>
          match b with
          | none => greedySelectInner g h depot fuel routes req vs (some (v.id, req, cost))
          | some b0 =>
            if cost < b0.2.2 then
              greedySelectInner g h depot fuel routes req vs (some (v.id, req, cost))
            else greedySelectInner g h depot fuel routes req vs b

/-- The full `best_choice` selection of `GreedyVRPPlanner.build_plan`: over
all pairs of a remaining request and a vehicle with sufficient capacity
(request-major order, strict improvement), the cheapest appended route. -/
def greedySelect (g : CityGraph) (h : NodeId → NodeId → ℚ) (depot : NodeId)
    (fuel : Nat) (routes : List (String × VehicleRoute)) (vehicles : List Vehicle) :
    List DeliveryRequest → Option (String × DeliveryRequest × WithTop ℚ) →
    Option (Option (String × DeliveryRequest × WithTop ℚ))
  | [], best => some best
  | req :: remaining, best =>
    match greedySelectInner g h depot fuel routes req vehicles best with
    | none => none
    | some best1 => greedySelect g h depot fuel routes vehicles remaining best1

/-- The `while remaining:` loop of `GreedyVRPPlanner.build_plan`. The `Nat`
fuel is instantiated with `remaining.length`, which suffices because each
pass places exactly one request. -/
def greedyLoop (g : CityGraph) (h : NodeId → NodeId → ℚ) (depot : NodeId)
    (vehicles : List Vehicle) (fuel : Nat) :
    Nat → List (String × VehicleRoute) → List DeliveryRequest →
    Option (Except GreedyError (List (String × VehicleRoute)))
  | _, routes, [] => some (.ok routes)
  | 0, _, _ :: _ => none
  | n + 1, routes, remaining =>
    match greedySelect g h depot fuel routes vehicles remaining none with
    | none => none
    | some none => some (.error .infeasible)
    | some (some (vid, chosen, _)) =>
      match dlookup routes vid with
      | none => none
      | some route =>
        greedyLoop g h depot vehicles fuel n
          (dinsert routes vid { route with stops := route.stops ++ [chosen] })
          (remaining.erase chosen)

/-- The final total-time loop of `GreedyVRPPlanner.build_plan`. -/
def greedyTotal (g : CityGraph) (h : NodeId → NodeId → ℚ) (depot : NodeId)
    (routes : List (String × VehicleRoute)) (fuel : Nat) :
    List Vehicle → WithTop ℚ → Option (WithTop ℚ)
  | [], acc => some acc
  | v :: vs, acc =>
    match dlookup routes v.id with
    | none => none
    | some route =>
      match route_cost g h v route.stops depot true fuel with
      | none => none
      | some c => greedyTotal g h depot routes fuel vs (acc + c)

/-- `GreedyVRPPlanner.build_plan`: precondition check, greedy construction,
then total cost. `none` models a crash / nontermination; `some (.error e)`
a raised `RuntimeError`. -/
def greedy_build_plan (g : CityGraph) (h : NodeId → NodeId → ℚ) (depot : NodeId)
    (vehicles : List Vehicle) (requests : List DeliveryRequest) (fuel : Nat) :
    Option (Except GreedyError PlanCost) :=
  match findUnplaceable requests vehicles with
  | some req => some (.error (.unplaceable req.id req.demand))
  | none =>
    let routes0 := vehicles.foldl (fun d v => dinsert d v.id ⟨v.id, []⟩) []
    match greedyLoop g h depot vehicles fuel requests.length routes0 requests with
    | none => none
    | some (.error e) => some (.error e)
    | some (.ok routes) =>
      match greedyTotal g h depot routes fuel vehicles 0 with
      | none => none
      | some total => some (.ok ⟨⟨depot, routes⟩, total⟩)

/-! ## algorithms/grouping_monte_carlo.py -/

/-- `INF = 10**18`, the (finite!) infeasibility sentinel of the
matrix-based cost model. -/
def INF : ℚ := 10 ^ 18

/-- The pairwise travel-time matrix, keyed by node pairs. -/
abbrev DistMatrix := List ((NodeId × NodeId) × ℚ)

/-- `_compute_time`: 0 for equal endpoints, A* cost otherwise, `INF` when
unreachable. -/
def compute_time (g : CityGraph) (h : NodeId → NodeId → ℚ) (fuel : Nat)
    (src dst : NodeId) : Option ℚ :=
  if src = dst then some 0
  else
    match astar_shortest_path g h src dst fuel with
    | none => none
    | some none => some INF
    | some (some (_, cost)) => some cost

/-- One `(a, b)` entry of `precompute_distances`: skip if present, else
store the computed time under both orientations (forced symmetrisation). -/
def precomputePair (g : CityGraph) (h : NodeId → NodeId → ℚ) (fuel : Nat)
    (d : DistMatrix) (a b : NodeId) : Option DistMatrix :=
  if (dlookup d (a, b)).isSome then some d
  else
    match compute_time g h fuel a b with
    | none => none
    | some t => some (dinsert (dinsert d (a, b) t) (b, a) t)

/-- The inner `for b in nodes` loop of `precompute_distances`. -/
def precomputeRow (g : CityGraph) (h : NodeId → NodeId → ℚ) (fuel : Nat)
    (a : NodeId) : List NodeId → DistMatrix → Option DistMatrix
  | [], d => some d
  | b :: bs, d =>
    match precomputePair g h fuel d a b with
    | none => none
    | some d1 => precomputeRow g h fuel a bs d1

/-- The outer `for a in nodes` loop of `precompute_distances`. -/
def precomputeAll (g : CityGraph) (h : NodeId → NodeId → ℚ) (fuel : Nat)
    (nodes : List NodeId) : List NodeId → DistMatrix → Option DistMatrix
  | [], d => some d
  | a :: rest, d =>
    match precomputeRow g h fuel a nodes d with
    | none => none
    | some d1 => precomputeAll g h fuel nodes rest d1

/-- `precompute_distances` over `{depot} ∪ {request nodes}`. -/
def precompute_distances (g : CityGraph) (h : NodeId → NodeId → ℚ) (fuel : Nat)
    (depot : NodeId) (requests : List DeliveryRequest) : Option DistMatrix :=
  let nodes := depot :: requests.map DeliveryRequest.node
  precomputeAll g h fuel nodes nodes []

/-- The stop loop of the matrix-based `route_time`, threading
`(total, cur, cap_left)`. Outer `none` is a KeyError on a missing matrix
entry; inner `none` is the early `return INF` on `demand <= 0`. -/
def rtLoop (depot : NodeId) (dist : DistMatrix) (cap : ℤ) :
    List DeliveryRequest → ℚ × NodeId × ℤ → Option (Option (ℚ × NodeId × ℤ))
  | [], st => some (some st)
  | r :: stops, (total, cur, cap_left) =>
    if r.demand ≤ 0 then some none
    else
      -- no room: first go home and start a fresh trip
      let afterReset : Option (ℚ × NodeId × ℤ) :=
        if cap_left < r.demand then
          if cur ≠ depot then
            (dlookup dist (cur, depot)).map (fun w => (total + w, depot, cap))
          else some (total, cur, cap)
        else some (total, cur, cap_left)
      match afterReset with
      | none => none
      | some (t1, cur1, capl1) =>
        match dlookup dist (cur1, r.node) with
        | none => none
        | some w => rtLoop depot dist cap stops (t1 + w, r.node, capl1 - r.demand)

/-- `route_time(depot, stops, dist, vehicle_capacity)`: matrix-based
capacity-aware route time. Note the empty-stops early return precedes the
capacity check. -/
def route_time (depot : NodeId) (stops : List DeliveryRequest)
    (dist : DistMatrix) (vehicle_capacity : ℤ) : Option ℚ :=
  if stops = [] then some 0
  else if vehicle_capacity ≤ 0 then some INF
  else
    match rtLoop depot dist vehicle_capacity stops (0, depot, vehicle_capacity) with
    | none => none
    | some none => some INF
    | some (some (total, cur, _)) =>
      if cur ≠ depot then (dlookup dist (cur, depot)).map (fun w => total + w)
      else some total

/-- The `for i, r in enumerate(remaining)` selection of
`build_tsp_route_nearest_neighbor`: index of the first strictly-minimal
distance, starting from `best_idx = 0`, `best_t = INF`. -/
def nnSelect (dist : DistMatrix) (cur : NodeId) :
    List DeliveryRequest → Nat → Nat → ℚ → Option Nat
  | [], _, best_idx, _ => some best_idx
  | r :: rest, i, best_idx, best_t =>
    match dlookup dist (cur, r.node) with
    | none => none
    | some t =>
      if t < best_t then nnSelect dist cur rest (i + 1) i t
      else nnSelect dist cur rest (i + 1) best_idx best_t

/-- The `while remaining` loop of `build_tsp_route_nearest_neighbor`; the
fuel is instantiated with `remaining.length`. -/
def nnLoop (dist : DistMatrix) :
    Nat → NodeId → List DeliveryRequest → List DeliveryRequest →
    Option (List DeliveryRequest)
  | _, _, [], route => some route
  | 0, _, _ :: _, _ => none
  | fuel + 1, cur, remaining, route =>
    match nnSelect dist cur remaining 0 0 INF with
    | none => none
    | some idx =>
      match remaining.get? idx with
      | none => none
      | some chosen =>
        nnLoop dist fuel chosen.node (remaining.eraseIdx idx) (route ++ [chosen])

/-- `build_tsp_route_nearest_neighbor`: greedy nearest-neighbor ordering of
a request set against the distance matrix, starting from the depot. -/
def build_tsp_route_nearest_neighbor (depot : NodeId)
    (requests : List DeliveryRequest) (dist : DistMatrix) :
    Option (List DeliveryRequest) :=
  if requests = [] then some []
  else nnLoop dist requests.length depot requests []

/-- The state of python's `random.Random`, abstracted as an infinite stream
of natural-number draws (consumed by `_randbelow`-based methods) and an
infinite stream of rational gaussian draws, with consumption positions. -/
structure PyRNG where
  nats : Nat → Nat
  gaussv : Nat → ℚ
  npos : Nat
  gpos : Nat

/-- `Random._randbelow n`: a draw in `[0, n)`; returns 0 without consuming
randomness when `n = 0`. -/
def PyRNG.randbelow (r : PyRNG) (n : Nat) : Nat × PyRNG :=
  if n = 0 then (0, r) else (r.nats r.npos % n, { r with npos := r.npos + 1 })

/-- `Random.choice seq = seq[_randbelow(len(seq))]`; IndexError (`none`) on
an empty sequence. -/
def PyRNG.choice {α : Type} (r : PyRNG) (seq : List α) : Option (α × PyRNG) :=
  match seq with
  | [] => none
  | _ :: _ =>
    let p := r.randbelow seq.length
    (seq.get? p.1).map (fun x => (x, p.2))

/-- `Random.randrange n`: ValueError (`none`) when `n = 0`. -/
def PyRNG.randrange (r : PyRNG) (n : Nat) : Option (Nat × PyRNG) :=
  if n = 0 then none else some (r.randbelow n)

/-- `Random.gauss mu sigma`: one scaled draw from the gaussian stream. -/
def PyRNG.gauss (r : PyRNG) (mu sigma : ℚ) : ℚ × PyRNG :=
  (mu + sigma * r.gaussv r.gpos, { r with gpos := r.gpos + 1 })

/-- Swap two positions of a list (no-op out of range, which never occurs in
`shuffle`). -/
def swapIdx {α : Type} (l : List α) (i j : Nat) : List α :=
  match l.get? i, l.get? j with
  | some a, some b => (l.set i b).set j a
  | _, _ => l

/-- The Fisher-Yates loop of `Random.shuffle`: processes indices
`i+1, i, ..., 1` downward, drawing `j = _randbelow(index + 1)`. -/
def shuffleGo {α : Type} : List α → PyRNG → Nat → List α × PyRNG
  | l, r, 0 => (l, r)
  | l, r, i + 1 =>
    let p := r.randbelow (i + 2)
    shuffleGo (swapIdx l (i + 1) p.1) p.2 i

/-- `Random.shuffle`: in-place Fisher-Yates, modelled functionally. -/
def PyRNG.shuffle {α : Type} (r : PyRNG) (l : List α) : List α × PyRNG :=
  match l.length with
  | 0 => (l, r)
  | n + 1 => shuffleGo l r n

/-- The optimizer's working state: vehicle id → assigned requests. -/
abbrev MCState := List (String × List DeliveryRequest)

/-- The `for req in shuffled` distribution loop of `init_state_random`. -/
def initDistribute (vehicles : List Vehicle) :
    List DeliveryRequest → MCState → PyRNG → Option (MCState × PyRNG)
  | [], state, rng => some (state, rng)
  | req :: reqs, state, rng =>
    match rng.choice vehicles with
    | none => none
    | some (v, rng1) =>
      match dlookup state v.id with
      | none => none
      | some lst => initDistribute vehicles reqs (dinsert state v.id (lst ++ [req])) rng1

/-- `init_state_random`: shuffle the requests, then append each to a
uniformly random vehicle's list. -/
def init_state_random (vehicles : List Vehicle) (requests : List DeliveryRequest)
    (rng : PyRNG) : Option (MCState × PyRNG) :=
  let state0 : MCState := vehicles.foldl (fun d v => dinsert d v.id []) []
  let p := rng.shuffle requests
  initDistribute vehicles p.1 state0 p.2

/-- The `for v in vehicles` loop of `evaluate_state`; `some INF` is the
early return on a vehicle of non-positive capacity. -/
def evalLoop (depot : NodeId) (state : MCState) (dist : DistMatrix) :
    List Vehicle → ℚ → Option ℚ
  | [], makespan => some makespan
  | v :: vs, makespan =>
    if v.capacity ≤ 0 then some INF
    else
      match dlookup state v.id with
      | none => none
      | some reqs =>
        if reqs = [] then evalLoop depot state dist vs makespan
        else
          match build_tsp_route_nearest_neighbor depot reqs dist with
          | none => none
          | some order =>
            match route_time depot order dist v.capacity with
            | none => none
            | some cost => evalLoop depot state dist vs (pymax makespan cost)

/-- `evaluate_state`: the makespan (max per-vehicle routed time) of a
grouping state. -/
def evaluate_state (depot : NodeId) (vehicles : List Vehicle) (state : MCState)
    (dist : DistMatrix) : Option ℚ :=
  evalLoop depot state dist vehicles 0

/-- `random_move`: relocate one uniformly random request from a uniformly
random source vehicle to a uniformly random other vehicle (no-op when the
source is empty or no other vehicle exists). -/
def random_move (state : MCState) (vehicles : List Vehicle) (rng : PyRNG) :
    Option (MCState × PyRNG) :=
  let v_ids := vehicles.map Vehicle.id
  match rng.choice v_ids with
  | none => none
  | some (from_vid, rng1) =>
    match dlookup state from_vid with
    | none => none
    | some fromList =>
      if fromList = [] then some (state, rng1)
      else
        match rng1.randrange fromList.length with
        | none => none
        | some (r_idx, rng2) =>
          match fromList.get? r_idx with
          | none => none
          | some req =>
            let popped := fromList.eraseIdx r_idx
            let state2 := dinsert state from_vid popped
            let to_candidates := v_ids.filter (fun vid => vid ≠ from_vid)
            if to_candidates = [] then
              some (dinsert state2 from_vid (popped ++ [req]), rng2)
            else
              match rng2.choice to_candidates with
              | none => none
              | some (to_vid, rng3) =>
                match dlookup state2 to_vid with
                | none => none
                | some toList => some (dinsert state2 to_vid (toList ++ [req]), rng3)

/-- `GroupingResult`: the Monte Carlo planner's plan and makespan estimate. -/
structure GroupingResult where
  plan : Plan
  makespan_estimate : ℚ
  deriving DecidableEq

/-- The loop state of `MonteCarloGroupingPlanner.build_plan`. -/
structure MCLoopState where
  current_state : MCState
  current_cost : ℚ
  best_state : MCState
  best_cost : ℚ
  rng : PyRNG

/-- One iteration of the hill-climbing loop: propose a relocation, accept
when not worse than the current cost, and record the best-ever state on
strict improvement over the best so far. -/
def mcStep (depot : NodeId) (vehicles : List Vehicle) (dist : DistMatrix)
    (st : MCLoopState) : Option MCLoopState :=
  match random_move st.current_state vehicles st.rng with
  | none => none
  | some (candidate, rng1) =>
    match evaluate_state depot vehicles candidate dist with
    | none => none
    | some cand_cost =>
      if cand_cost ≤ st.current_cost then
        if cand_cost < st.best_cost then
          some ⟨candidate, cand_cost, candidate, cand_cost, rng1⟩
        else
          some { st with current_state := candidate, current_cost := cand_cost, rng := rng1 }
      else some { st with rng := rng1 }

/-- `for it in range(self.iterations)`: iterate `mcStep`. -/
def mcLoop (depot : NodeId) (vehicles : List Vehicle) (dist : DistMatrix) :
    Nat → MCLoopState → Option MCLoopState
  | 0, st => some st
  | n + 1, st =>
    match mcStep depot vehicles dist st with
    | none => none
    | some st1 => mcLoop depot vehicles dist n st1

/-- The final `for v in vehicles` plan-building loop of
`MonteCarloGroupingPlanner.build_plan`. -/
def mcFinalRoutes (depot : NodeId) (dist : DistMatrix) (best_state : MCState) :
    List Vehicle → List (String × VehicleRoute) →
    Option (List (String × VehicleRoute))
  | [], routes => some routes
  | v :: vs, routes =>
    match dlookup best_state v.id with
    | none => none
    | some reqs =>
      match build_tsp_route_nearest_neighbor depot reqs dist with
      | none => none
      | some ordered =>
        mcFinalRoutes depot dist best_state vs (dinsert routes v.id ⟨v.id, ordered⟩)

/-- `MonteCarloGroupingPlanner.build_plan`; the returned `PyRNG` is the
planner's `self.rng` after the run. -/
def mc_build_plan (g : CityGraph) (h : NodeId → NodeId → ℚ) (depot : NodeId)
    (vehicles : List Vehicle) (requests : List DeliveryRequest) (rng : PyRNG)
    (iterations : Nat) (fuel : Nat) : Option (GroupingResult × PyRNG) :=
  if requests = [] then
    let routes := vehicles.foldl (fun d v => dinsert d v.id ⟨v.id, []⟩) []
    some (⟨⟨depot, routes⟩, 0⟩, rng)
  else
    match precompute_distances g h fuel depot requests with
    | none => none
    | some dist =>
      match init_state_random vehicles requests rng with
      | none => none
      | some (state, rng1) =>
        match evaluate_state depot vehicles state dist with
        | none => none
        | some cost0 =>
          match mcLoop depot vehicles dist iterations ⟨state, cost0, state, cost0, rng1⟩ with
          | none => none
          | some stf =>
            match mcFinalRoutes depot dist stf.best_state vehicles [] with
            | none => none
            | some routes => some (⟨⟨depot, routes⟩, stf.best_cost⟩, stf.rng)

/-! ## simulation/engine.py -/

/-- `SimulationResult`: per-vehicle dict of times, their sum, and their max. -/
structure SimulationResult where
  vehicle_times : List (String × WithTop ℚ)
  total_time : WithTop ℚ
  max_time : WithTop ℚ

/-- `TrafficSimulator._edge_time`: noisy edge traversal time,
`max(0, base + gauss(0, 0.1 * base))`; no gaussian draw when the noise
scale is not positive. -/
def edge_time (e : Edge) (rng : PyRNG) : ℚ × PyRNG :=
  let base := e.base_travel_time
  let sigma := (1 / 10 : ℚ) * base
  let p := if sigma > 0 then rng.gauss 0 sigma else (0, rng)
  (pymax 0 (base + p.1), p.2)

/-- The first edge from `src` to `dst`, as `next(e for e in neighbors(src)
if e.dst == dst)`; `none` models the StopIteration crash. -/
def findEdge (g : CityGraph) (src dst : NodeId) : Option Edge :=
  (g.neighbors src).find? (fun e => e.dst = dst)

/-- Walk the consecutive edges of an A* path, accumulating noisy edge
times; `none` models the StopIteration crash on a missing edge. -/
def walkPath (g : CityGraph) : List NodeId → ℚ → PyRNG → Option (ℚ × PyRNG)
  | [], t, rng => some (t, rng)
  | [_], t, rng => some (t, rng)
  | a :: b :: p, t, rng =>
    match findEdge g a b with
    | none => none
    | some e =>
      let q := edge_time e rng
      walkPath g (b :: p) (t + q.1) q.2

/-- The `for req in route.stops` loop of `simulate_once` for one vehicle;
stops early with time `⊤` (`math.inf`) when a leg is unreachable. -/
def simStops (g : CityGraph) (h : NodeId → NodeId → ℚ) (fuel : Nat) :
    List DeliveryRequest → NodeId → ℚ → PyRNG →
    Option (NodeId × WithTop ℚ × PyRNG)
  | [], cur, t, rng => some (cur, (t : ℚ), rng)
  | req :: stops, cur, t, rng =>
    match astar_shortest_path g h cur req.node fuel with
    | none => none
    | some none => some (cur, ⊤, rng)
    | some (some (path, _)) =>
      match walkPath g path t rng with
      | none => none
      | some (t1, rng1) => simStops g h fuel stops req.node t1 rng1

/-- One vehicle of `simulate_once`: walk the stops from the vehicle's start
node, then the depot-return leg when requested, the time is finite so far
and the stop list is nonempty. -/
def simVehicle (g : CityGraph) (h : NodeId → NodeId → ℚ) (fuel : Nat)
    (depot : NodeId) (return_to_depot : Bool) (v : Vehicle)
    (stops : List DeliveryRequest) (rng : PyRNG) :
    Option (WithTop ℚ × PyRNG) :=
  match simStops g h fuel stops v.start_node 0 rng with
  | none => none
  | some (cur, t, rng1) =>
    match t with
    | ⊤ => some (⊤, rng1)
    | (tq : ℚ) =>
      if return_to_depot && !stops.isEmpty then
        match astar_shortest_path g h cur depot fuel with
        | none => none
        | some none => some (⊤, rng1)
        | some (some (path, _)) =>
          match walkPath g path tq rng1 with
          | none => none
          | some (t2, rng2) => some ((t2 : ℚ), rng2)
      else some ((tq : ℚ), rng1)

/-- The `for vid, route in plan.routes.items()` loop of `simulate_once`. -/
def simRoutes (g : CityGraph) (h : NodeId → NodeId → ℚ) (fuel : Nat)
    (depot : NodeId) (return_to_depot : Bool)
    (v_index : List (String × Vehicle)) :
    List (String × VehicleRoute) → List (String × WithTop ℚ) → PyRNG →
    Option (List (String × WithTop ℚ) × PyRNG)
  | [], times, rng => some (times, rng)
  | (vid, route) :: rest, times, rng =>
    match dlookup v_index vid with
    | none => none
    | some v =>
      match simVehicle g h fuel depot return_to_depot v route.stops rng with
      | none => none
      | some (t, rng1) =>
        simRoutes g h fuel depot return_to_depot v_index rest (dinsert times vid t) rng1

/-- `TrafficSimulator.simulate_once`: replay a plan with noisy edge times;
aggregates per-vehicle times, their sum and their max. The returned `PyRNG`
is the simulator's `self.rng` after the run. -/
def simulate_once (g : CityGraph) (h : NodeId → NodeId → ℚ) (plan : Plan)
    (vehicles : List Vehicle) (return_to_depot : Bool) (rng : PyRNG)
    (fuel : Nat) : Option (SimulationResult × PyRNG) :=
  let v_index := vehicles.foldl (fun d v => dinsert d v.id v) []
  match simRoutes g h fuel plan.depot return_to_depot v_index plan.routes [] rng with
  | none => none
  | some (times, rng1) =>
    let vals := times.map Prod.snd
    let max_time : WithTop ℚ := match vals with | [] => 0 | x :: xs => xs.foldl pymax x
    let total_time := vals.foldl (· + ·) 0
    some (⟨times, total_time, max_time⟩, rng1)

deriving instance DecidableEq for Except

/-! ## Path predicates and statement helpers -/

/-- Travel time along a node path, taking for each consecutive pair the
first matching edge (as the simulator's edge lookup does); `none` when some
pair has no edge. -/
def pathTimeFirst (g : CityGraph) : List NodeId → Option ℚ
  | [] => some 0
  | [_] => some 0
  | a :: b :: p =>
    match findEdge g a b with
    | none => none
    | some e => (pathTimeFirst g (b :: p)).map (fun t => e.base_travel_time + t)

/-- `PathRealized g p es`: the edge list `es` realizes the node path `p`
edge by edge inside `g`. -/
def PathRealized (g : CityGraph) : List NodeId → List Edge → Prop
  | [_], [] => True
  | a :: b :: p, e :: es => e ∈ g.neighbors a ∧ e.dst = b ∧ PathRealized g (b :: p) es
  | _, _ => False

/-- `edgeChain g a es b`: `es` is a chain of consecutive edges of `g` from
`a` to `b`. -/
def edgeChain (g : CityGraph) : NodeId → List Edge → NodeId → Prop
  | a, [], b => a = b
  | a, e :: es, b => e ∈ g.neighbors a ∧ edgeChain g e.dst es b

/-- Total base travel time of an edge list. -/
def edgeChainTime (es : List Edge) : ℚ := (es.map Edge.base_travel_time).sum

/-- The multiset of requests stored across all routes of a plan's route
dict. -/
def routesStops (d : List (String × VehicleRoute)) : Multiset DeliveryRequest :=
  (d.map (fun kv => (kv.2.stops : Multiset DeliveryRequest))).sum

/-- The multiset of requests stored across an optimizer state. -/
def stateStops (d : MCState) : Multiset DeliveryRequest :=
  (d.map (fun kv => (kv.2 : Multiset DeliveryRequest))).sum

/-! ## Concrete instances used in counterexamples and witnesses -/

/-- The everywhere-zero heuristic (what `heuristic_time` computes on graphs
whose nodes all share one coordinate). -/
def h0 : NodeId → NodeId → ℚ := fun _ _ => 0

/-- A deterministic rng whose draws are all zero. -/
def rng0 : PyRNG := ⟨fun _ => 0, fun _ => 0, 0, 0⟩

/-- A one-node graph with no edges. -/
def gD1 : CityGraph :=
  ⟨[("D", ⟨"D", 0, 0⟩)], [("D", [])]⟩

/-- A two-node graph with a single unit-time edge from A to B. -/
def gAB : CityGraph :=
  ⟨[("A", ⟨"A", 0, 0⟩), ("B", ⟨"B", 0, 0⟩)],
   [("A", [⟨"A", "B", 1, 1⟩]), ("B", [])]⟩

/-- The x-coordinates of `gCE`'s nodes (all on the x-axis). -/
def xCE : NodeId → ℚ := fun n => if n = "Q" then 21 / 2 else 0

/-- The rational value of `gCE`'s heuristic: straight-line distance on the
x-axis over the maximal speed 1. -/
def hCE : NodeId → NodeId → ℚ := fun a b => |xCE a - xCE b|

/-- A graph on which the heuristic derived from the coordinates misleads
A*: edge lengths are decoupled from the geometry, so `heuristic_time` is
inadmissible at `Q` and a closed node (`P`) is later improved without being
reopened. -/
def gCE : CityGraph :=
  ⟨[("S", ⟨"S", 0, 0⟩), ("P", ⟨"P", 0, 0⟩), ("X", ⟨"X", 0, 0⟩),
    ("Q", ⟨"Q", 21 / 2, 0⟩), ("G", ⟨"G", 0, 0⟩)],
   [("S", [⟨"S", "P", 10, 1⟩, ⟨"S", "Q", 1, 1⟩]),
    ("Q", [⟨"Q", "P", 1, 1⟩]),
    ("P", [⟨"P", "X", 1, 1⟩]),
    ("X", [⟨"X", "G", 1, 1⟩]),
    ("G", [])]⟩

/-- A vehicle starting at `S` with ample capacity, used against `gCE`. -/
def vCE : Vehicle := ⟨"v1", 5, "S"⟩

/-- A unit-demand request at node `Q` of `gCE`. -/
def reqQ : DeliveryRequest := ⟨"rQ", "Q", 1⟩

/-- A three-node one-way graph (all nodes at the same point, so the
heuristic is zero): `D→L` long, `D→Y` and `L→Y` short, nothing leaves `Y`.
Its symmetrised distance matrix violates the triangle inequality. -/
def gDLY : CityGraph :=
  ⟨[("D", ⟨"D", 0, 0⟩), ("L", ⟨"L", 0, 0⟩), ("Y", ⟨"Y", 0, 0⟩)],
   [("D", [⟨"D", "L", 10, 1⟩, ⟨"D", "Y", 1, 1⟩]),
    ("L", [⟨"L", "Y", 1, 1⟩]),
    ("Y", [])]⟩

/-- A unit-demand request at node `L` of `gDLY`. -/
def reqL : DeliveryRequest := ⟨"rL", "L", 1⟩

/-- A unit-demand request at node `Y` of `gDLY`. -/
def reqY : DeliveryRequest := ⟨"rY", "Y", 1⟩

/-- A two-node graph whose single edge is much shorter than the euclidean
distance between its endpoints, making the heuristic overestimate. -/
def gAdm : CityGraph :=
  ⟨[("A", ⟨"A", 0, 0⟩), ("B", ⟨"B", 3, 4⟩)],
   [("A", [⟨"A", "B", 1, 1⟩]), ("B", [])]⟩

/-- A unit-demand request at the single node of `gD1`. -/
def reqD : DeliveryRequest := ⟨"rD", "D", 1⟩

/-- A zero-demand request at the single node of `gD1` (invalid input). -/
def reqD0 : DeliveryRequest := ⟨"r0", "D", 0⟩

/-- A capacity-3 vehicle at the single node of `gD1`. -/
def vD : Vehicle := ⟨"v", 3, "D"⟩

/-- `Linked cf p`: every consecutive pair `(a, b)` of `p` satisfies
`cf b = some a`, i.e. `p` follows predecessor links forward. -/
def Linked (cf : NodeId → Option NodeId) : List NodeId → Prop
  | a :: b :: rest => cf b = some a ∧ Linked cf (b :: rest)
  | _ => True

/-- The A* loop invariant: the start keeps `g_score` 0, all `g_score`s are
nonnegative, and every `came_from` link is witnessed by a graph edge whose
weight added to the predecessor's current `g_score` is at most the
successor's current `g_score` (an inequality, since `g_score`s only
decrease after a link is written). -/
def AInv (g : CityGraph) (start : NodeId) (st : AState) : Prop :=
  st.g_score start = some 0 ∧
  (∀ n q, st.g_score n = some q → 0 ≤ q) ∧
  (∀ n c, st.came_from n = some c →
    ∃ e ∈ g.neighbors c, e.dst = n ∧
      ∃ qn qc, st.g_score n = some qn ∧ st.g_score c = some qc ∧
        qc + e.base_travel_time ≤ qn)

/-- Remove the first binding of a key from an association list (a proof
device for summing over dictionaries; python dicts never hold a key
twice). -/
def dErase {K V : Type} [DecidableEq K] : List (K × V) → K → List (K × V)
  | [], _ => []
  | (k1, v1) :: rest, k => if k1 = k then rest else (k1, v1) :: dErase rest k

/-! ## Theorems: dictionary lemmas -/

theorem dlookup_dinsert_self {K V : Type} [DecidableEq K] (d : List (K × V))
    (k : K) (v : V) : dlookup (dinsert d k v) k = some v := by
  induction d with
  | nil => simp [dinsert, dlookup]
  | cons kv rest ih =>
    obtain ⟨k1, v1⟩ := kv
    by_cases hk : k1 = k
    · subst hk; simp [dinsert, dlookup]
    · simp [dinsert, hk, dlookup, ih]

theorem dlookup_dinsert_ne {K V : Type} [DecidableEq K] (d : List (K × V))
    (k k' : K) (v : V) (hne : k ≠ k') :
    dlookup (dinsert d k v) k' = dlookup d k' := by
  induction d with
  | nil => simp [dinsert, dlookup, hne]
  | cons kv rest ih =>
    obtain ⟨k1, v1⟩ := kv
    by_cases hk : k1 = k
    · subst hk; simp [dinsert, dlookup, hne]
    · simp [dinsert, hk, dlookup, ih]

theorem dKeys_dinsert_present {K V : Type} [DecidableEq K] (d : List (K × V))
    (k : K) (v w : V) (hw : dlookup d k = some w) :
    dKeys (dinsert d k v) = dKeys d := by
  induction d with
  | nil => simp [dlookup] at hw
  | cons kv rest ih =>
    obtain ⟨k1, v1⟩ := kv
    by_cases hk : k1 = k
    · subst hk; simp [dinsert, dKeys]
    · simp only [dlookup, if_neg hk] at hw
      simp [dinsert, hk, dKeys, ih hw] at *
      exact ih hw

theorem dKeys_dinsert_absent {K V : Type} [DecidableEq K] (d : List (K × V))
    (k : K) (v : V) (hw : dlookup d k = none) :
    dKeys (dinsert d k v) = dKeys d ++ [k] := by
  induction d with
  | nil => simp [dinsert, dKeys]
  | cons kv rest ih =>
    obtain ⟨k1, v1⟩ := kv
    by_cases hk : k1 = k
    · subst hk; simp [dlookup] at hw
    · simp only [dlookup, if_neg hk] at hw
      simp [dinsert, hk, dKeys] at *
      exact ih hw

theorem msum_dinsert_present {K V α : Type} [DecidableEq K] (f : V → Multiset α)
    (d : List (K × V)) (k : K) (v w : V) (hw : dlookup d k = some w) :
    ((dinsert d k v).map (fun kv => f kv.2)).sum + f w
      = (d.map (fun kv => f kv.2)).sum + f v := by
  induction d with
  | nil => simp [dlookup] at hw
  | cons kv rest ih =>
    obtain ⟨k1, v1⟩ := kv
    by_cases hk : k1 = k
    · subst hk
      simp only [dlookup, if_true, eq_self_iff_true, Option.some.injEq] at hw
      subst hw
      simp [dinsert]
      abel
    · simp only [dlookup, if_neg hk] at hw
      simp only [dinsert, if_neg hk, List.map_cons, List.sum_cons]
      rw [add_assoc, add_assoc, ih hw]

theorem msum_dinsert_absent {K V α : Type} [DecidableEq K] (f : V → Multiset α)
    (d : List (K × V)) (k : K) (v : V) (hw : dlookup d k = none) :
    ((dinsert d k v).map (fun kv => f kv.2)).sum
      = (d.map (fun kv => f kv.2)).sum + f v := by
  induction d with
  | nil => simp [dinsert]
  | cons kv rest ih =>
    obtain ⟨k1, v1⟩ := kv
    by_cases hk : k1 = k
    · subst hk; simp [dlookup] at hw
    · simp only [dlookup, if_neg hk] at hw
      simp only [dinsert, if_neg hk, List.map_cons, List.sum_cons]
      rw [ih hw, add_assoc]

theorem dlookup_mem {K V : Type} [DecidableEq K] (d : List (K × V)) (k : K)
    (v : V) (hv : dlookup d k = some v) : (k, v) ∈ d := by
  induction d with
  | nil => simp [dlookup] at hv
  | cons kv rest ih =>
    obtain ⟨k1, v1⟩ := kv
    by_cases hk : k1 = k
    · subst hk
      simp only [dlookup, if_true, eq_self_iff_true, Option.some.injEq] at hv
      subst hv; exact List.mem_cons_self _ _
    · simp only [dlookup, if_neg hk] at hv
      exact List.mem_cons_of_mem _ (ih hv)

/-! ## Theorems: route cost basics (claim C1) -/

theorem route_cost_top_of_nonpos_cap (g : CityGraph) (h : NodeId → NodeId → ℚ)
    (v : Vehicle) (stops : List DeliveryRequest) (depot : NodeId) (rtd : Bool)
    (fuel : Nat) (hc : v.capacity ≤ 0) :
    route_cost g h v stops depot rtd fuel = some ⊤ := by
  unfold route_cost
  rw [if_pos hc]

/-- C1 (amended): `GreedyVRPPlanner._route_cost` returns `float("inf")` for
every stop list (including the empty one) of a vehicle with capacity ≤ 0;
the matrix-based `route_time` returns its sentinel `INF` for every
*nonempty* stop list when the capacity is ≤ 0, but returns 0 for the empty
stop list regardless of capacity, because its empty-stops early return
precedes the capacity check. -/
theorem c1_amended :
    (∀ (g : CityGraph) (h : NodeId → NodeId → ℚ) (v : Vehicle)
        (stops : List DeliveryRequest) (depot : NodeId) (rtd : Bool) (fuel : Nat),
      v.capacity ≤ 0 → route_cost g h v stops depot rtd fuel = some ⊤) ∧
    (∀ (depot : NodeId) (stops : List DeliveryRequest) (dist : DistMatrix) (cap : ℤ),
      cap ≤ 0 → stops ≠ [] → route_time depot stops dist cap = some INF) ∧
    (∀ (depot : NodeId) (dist : DistMatrix) (cap : ℤ),
      route_time depot [] dist cap = some 0) := by
  refine ⟨route_cost_top_of_nonpos_cap, ?_, ?_⟩
  · intro depot stops dist cap hc hs
    unfold route_time
    rw [if_neg hs, if_pos hc]
  · intro depot dist cap
    unfold route_time
    rw [if_pos rfl]

/-- C1 witness: concrete evaluations of the amended statement. -/
theorem c1_witness :
    route_cost gD1 h0 ⟨"v", 0, "D"⟩ [reqD] "D" true 3 = some ⊤ ∧
    route_time "D" [reqD] [] 0 = some INF ∧
    route_time "D" [] [] 5 = some 0 :=
  ⟨c1_amended.1 gD1 h0 ⟨"v", 0, "D"⟩ [reqD] "D" true 3 (by decide),
   c1_amended.2.1 "D" [reqD] [] 0 (by decide) (by decide),
   c1_amended.2.2 "D" [] 5⟩

/-- C1 counterexample: with capacity 0 and an empty stop list, `route_time`
returns 0, not the infinity sentinel, so "including the empty stops list"
is false for the matrix-based model. -/
theorem c1_counterexample :
    route_time "D" ([] : List DeliveryRequest) [] 0 = some 0 ∧ (0 : ℚ) ≠ INF := by
  constructor
  · rfl
  · decide

/-! ## Theorems: Monte Carlo best-cost tracking (claim C6) -/

theorem mcStep_best (depot : NodeId) (vehicles : List Vehicle) (dist : DistMatrix)
    (st st' : MCLoopState) (hstep : mcStep depot vehicles dist st = some st') :
    st'.best_cost ≤ st.best_cost ∧
      (st'.best_cost < st.best_cost ∨
        (st'.best_cost = st.best_cost ∧ st'.best_state = st.best_state)) := by
  unfold mcStep at hstep
  split at hstep
  · exact absurd hstep (by simp)
  · split at hstep
    · exact absurd hstep (by simp)
    · split at hstep
      · split at hstep
        · next hacc hlt =>
          simp only [Option.some.injEq] at hstep
          subst hstep
          exact ⟨le_of_lt hlt, Or.inl hlt⟩
        · simp only [Option.some.injEq] at hstep
          subst hstep
          exact ⟨le_refl _, Or.inr ⟨rfl, rfl⟩⟩
      · simp only [Option.some.injEq] at hstep
        subst hstep
        exact ⟨le_refl _, Or.inr ⟨rfl, rfl⟩⟩

theorem mcLoop_add (depot : NodeId) (vehicles : List Vehicle) (dist : DistMatrix)
    (m k : Nat) (st : MCLoopState) :
    mcLoop depot vehicles dist (m + k) st
      = (mcLoop depot vehicles dist m st).bind (mcLoop depot vehicles dist k) := by
  induction m generalizing st with
  | zero => simp [mcLoop, Nat.zero_add]
  | succ m ih =>
    have h1 : m + 1 + k = (m + k) + 1 := by omega
    rw [h1]
    simp only [mcLoop]
    cases hstep : mcStep depot vehicles dist st with
    | none => simp
    | some st1 => simp [ih st1]

theorem mcLoop_best_le (depot : NodeId) (vehicles : List Vehicle)
    (dist : DistMatrix) (k : Nat) (st stk : MCLoopState)
    (hk : mcLoop depot vehicles dist k st = some stk) :
    stk.best_cost ≤ st.best_cost := by
  induction k generalizing st with
  | zero =>
    simp only [mcLoop, Option.some.injEq] at hk
    subst hk; exact le_refl _
  | succ k ih =>
    simp only [mcLoop] at hk
    cases hstep : mcStep depot vehicles dist st with
    | none => rw [hstep] at hk; simp at hk
    | some st1 =>
      rw [hstep] at hk
      exact le_trans (ih st1 hk) (mcStep_best depot vehicles dist st st1 hstep).1

/-- C6: across the iterations of `MonteCarloGroupingPlanner.build_plan`'s
hill-climbing loop, the tracked best cost is non-increasing (after `n ≥ m`
iterations the best cost is at most its value after `m` iterations), and a
single iteration changes the recorded best pair only on strict improvement
of the best cost. -/
theorem c6_best_cost_monotone :
    (∀ (depot : NodeId) (vehicles : List Vehicle) (dist : DistMatrix)
        (m n : Nat) (st : MCLoopState) (cm cn : ℚ), m ≤ n →
      (mcLoop depot vehicles dist m st).map MCLoopState.best_cost = some cm →
      (mcLoop depot vehicles dist n st).map MCLoopState.best_cost = some cn →
      cn ≤ cm) ∧
    (∀ (depot : NodeId) (vehicles : List Vehicle) (dist : DistMatrix)
        (st : MCLoopState) (c1 : ℚ) (s1 : MCState),
      (mcStep depot vehicles dist st).map
          (fun s => (s.best_cost, s.best_state)) = some (c1, s1) →
      c1 ≤ st.best_cost ∧
        (c1 < st.best_cost ∨ (c1 = st.best_cost ∧ s1 = st.best_state))) := by
  constructor
  · intro depot vehicles dist m n st cm cn hmn hm hn
    obtain ⟨k, rfl⟩ := Nat.le.dest hmn
    rw [Option.map_eq_some'] at hm hn
    obtain ⟨stm, hstm, hcm⟩ := hm
    obtain ⟨stn, hstn, hcn⟩ := hn
    rw [mcLoop_add, hstm, Option.some_bind] at hstn
    subst hcm; subst hcn
    exact mcLoop_best_le depot vehicles dist k stm stn hstn
  · intro depot vehicles dist st c1 s1 hstep
    rw [Option.map_eq_some'] at hstep
    obtain ⟨st', hst', heq⟩ := hstep
    have h := mcStep_best depot vehicles dist st st' hst'
    simp only [Prod.mk.injEq] at heq
    obtain ⟨hc, hs⟩ := heq
    subst hc; subst hs
    exact h


/-- C6 witness: a concrete run (one vehicle, one request, three iterations)
of the loop, with the monotonicity conclusion instantiated at m = 1,
n = 3. -/
theorem c6_witness :
    (mcLoop "D" [vD] [(("D", "D"), 0)] 1
        ⟨[("v", [reqD])], 0, [("v", [reqD])], 0, rng0⟩).map
      MCLoopState.best_cost = some 0 ∧
    (mcLoop "D" [vD] [(("D", "D"), 0)] 3
        ⟨[("v", [reqD])], 0, [("v", [reqD])], 0, rng0⟩).map
      MCLoopState.best_cost = some 0 ∧
    (0 : ℚ) ≤ 0 :=
  ⟨by with_unfolding_all decide, by with_unfolding_all decide,
   c6_best_cost_monotone.1 "D" [vD] [(("D", "D"), 0)] 1 3
     ⟨[("v", [reqD])], 0, [("v", [reqD])], 0, rng0⟩ 0 0 (by omega)
     (by with_unfolding_all decide) (by with_unfolding_all decide)⟩

/-! ## Theorems: determinism under a fixed random source (claim C8) -/

/-- C8: with a fixed random-source state and fixed inputs, the greedy
planner (which consumes no randomness), the Monte Carlo grouping planner,
and the traffic simulator each produce identical outputs — plan, cost or
makespan estimate, and per-vehicle/total/max times — across repeated runs.
The random source is captured entirely by its draw streams and positions:
two states with equal streams and positions drive identical runs. -/
theorem c8_determinism :
    ∀ (g : CityGraph) (hf : NodeId → NodeId → ℚ) (depot : NodeId)
      (vehicles : List Vehicle) (requests : List DeliveryRequest)
      (plan : Plan) (iterations fuel : Nat) (rtd : Bool) (r1 r2 : PyRNG),
      r1.nats = r2.nats → r1.gaussv = r2.gaussv → r1.npos = r2.npos →
      r1.gpos = r2.gpos →
      greedy_build_plan g hf depot vehicles requests fuel
          = greedy_build_plan g hf depot vehicles requests fuel ∧
        mc_build_plan g hf depot vehicles requests r1 iterations fuel
          = mc_build_plan g hf depot vehicles requests r2 iterations fuel ∧
        simulate_once g hf plan vehicles rtd r1 fuel
          = simulate_once g hf plan vehicles rtd r2 fuel := by
  intro g hf depot vehicles requests plan iterations fuel rtd r1 r2 h1 h2 h3 h4
  have hr : r1 = r2 := by cases r1; cases r2; simp_all
  subst hr
  exact ⟨rfl, rfl, rfl⟩

/-- C8 witness: two syntactically distinct but equal random states drive
equal runs on a concrete instance. -/
theorem c8_witness :
    greedy_build_plan gD1 h0 "D" [vD] [reqD] 10
        = greedy_build_plan gD1 h0 "D" [vD] [reqD] 10 ∧
      mc_build_plan gD1 h0 "D" [vD] [reqD] rng0 2 10
        = mc_build_plan gD1 h0 "D" [vD] [reqD] ⟨fun _ => 0, fun _ => 0, 0, 0⟩ 2 10 ∧
      simulate_once gD1 h0 ⟨"D", [("v", ⟨"v", []⟩)]⟩ [vD] true rng0 10
        = simulate_once gD1 h0 ⟨"D", [("v", ⟨"v", []⟩)]⟩ [vD] true
            ⟨fun _ => 0, fun _ => 0, 0, 0⟩ 10 :=
  c8_determinism gD1 h0 "D" [vD] [reqD] ⟨"D", [("v", ⟨"v", []⟩)]⟩ 2 10 true
    rng0 ⟨fun _ => 0, fun _ => 0, 0, 0⟩ rfl rfl rfl rfl

/-! ## Theorems: heuristic agreement on the concrete graphs -/

theorem hypotR_rat_zero (d : ℚ) : hypotR (d : ℝ) ((0 : ℚ) : ℝ) = ((|d| : ℚ) : ℝ) := by
  unfold hypotR
  push_cast
  rw [show ((0:ℝ)) ^ 2 = 0 by norm_num, add_zero, Real.sqrt_sq_eq_abs]

theorem heuristic_time_y0 (g : CityGraph) (a b : NodeId) (na nb : Node)
    (hna : dlookup g.nodes a = some na) (hnb : dlookup g.nodes b = some nb)
    (hya : na.y = 0) (hyb : nb.y = 0) :
    g.heuristic_time a b = some ((|na.x - nb.x| / g.max_speed_limit : ℚ) : ℝ) := by
  have hy : na.y - nb.y = 0 := by rw [hya, hyb]; ring
  have h1 : g.heuristic_time a b
      = some (hypotR ((na.x - nb.x : ℚ) : ℝ) ((na.y - nb.y : ℚ) : ℝ)
          / ((g.max_speed_limit : ℚ) : ℝ)) := by
    unfold CityGraph.heuristic_time
    rw [hna, hnb]
  rw [h1, hy, hypotR_rat_zero]
  norm_cast

/-- On `gCE`, the real-valued `heuristic_time` agrees with the rational
table `hCE` that the A* runs of the counterexamples use, at every pair
whose second component is one of the two goals (`G` and `Q`) those runs
query. -/
theorem gCE_heuristic_agrees :
    ∀ a ∈ (["S", "P", "X", "Q", "G"] : List NodeId), ∀ b ∈ (["G", "Q"] : List NodeId),
      gCE.heuristic_time a b = some ((hCE a b : ℚ) : ℝ) := by
  intro a ha b hb
  fin_cases ha <;> fin_cases hb <;>
    · rw [heuristic_time_y0 gCE _ _ _ _ (by with_unfolding_all rfl)
        (by with_unfolding_all rfl) rfl rfl]
      simp only [Option.some.injEq, Rat.cast_inj]
      with_unfolding_all decide

/-- On `gDLY` (all nodes at the origin), `heuristic_time` is identically
zero, which is the heuristic `h0` used when its distance matrix is
precomputed in the counterexamples. -/
theorem gDLY_heuristic_agrees :
    ∀ a ∈ (["D", "L", "Y"] : List NodeId), ∀ b ∈ (["D", "L", "Y"] : List NodeId),
      gDLY.heuristic_time a b = some ((h0 a b : ℚ) : ℝ) := by
  intro a ha b hb
  fin_cases ha <;> fin_cases hb <;>
    · rw [heuristic_time_y0 gDLY _ _ _ _ (by with_unfolding_all rfl)
        (by with_unfolding_all rfl) rfl rfl]
      simp only [Option.some.injEq, Rat.cast_inj]
      with_unfolding_all decide

/-- On `gAB` (both nodes at the origin), `heuristic_time` is identically
zero, agreeing with `h0`. -/
theorem gAB_heuristic_agrees :
    ∀ a ∈ (["A", "B"] : List NodeId), ∀ b ∈ (["A", "B"] : List NodeId),
      gAB.heuristic_time a b = some ((h0 a b : ℚ) : ℝ) := by
  intro a ha b hb
  fin_cases ha <;> fin_cases hb <;>
    · rw [heuristic_time_y0 gAB _ _ _ _ (by with_unfolding_all rfl)
        (by with_unfolding_all rfl) rfl rfl]
      simp only [Option.some.injEq, Rat.cast_inj]
      with_unfolding_all decide

/-! ## Theorems: counterexamples against C3, C4, C7 -/

/-- C4 counterexample: on `gCE` (goal `G` reachable from start `S`), A*
returns the path `[S, Q, P, X, G]` with cost 12, but the summed base travel
times along that path are 4: the heuristic is inadmissible there, the
closed node `P` is improved after closing without being reopened, and the
returned `g_score` is stale. -/
theorem c4_counterexample :
    astar_shortest_path gCE hCE "S" "G" 20
        = some (some (["S", "Q", "P", "X", "G"], 12)) ∧
      pathTimeFirst gCE ["S", "Q", "P", "X", "G"] = some 4 ∧
      (4 : ℚ) ≠ 12 :=
  ⟨by with_unfolding_all decide, by with_unfolding_all decide, by norm_num⟩

/-- C3 counterexample: appending a stop can strictly decrease both cost
models. On `gCE`, `_route_cost` of the empty stop list is 12 (the misled
A* overprices the direct `S → G` return), while appending the stop at `Q`
gives 4. On `gDLY`, the symmetrised matrix fabricates a cheap `L → D`
return, and the two-stop route is cheaper than the one-stop route. -/
theorem c3_counterexample :
    (route_cost gCE hCE vCE [] "G" true 20 = some 12 ∧
      route_cost gCE hCE vCE [reqQ] "G" true 20 = some 4 ∧
      ¬ ((12 : WithTop ℚ) ≤ (4 : WithTop ℚ))) ∧
    (precompute_distances gDLY h0 20 "D" [reqL, reqY]
        = some [(("D", "D"), 0), (("D", "L"), 10), (("L", "D"), 10),
                (("D", "Y"), 1), (("Y", "D"), 1), (("L", "L"), 0),
                (("L", "Y"), 1), (("Y", "L"), 1), (("Y", "Y"), 0)] ∧
      route_time "D" [reqL]
          [(("D", "D"), 0), (("D", "L"), 10), (("L", "D"), 10),
           (("D", "Y"), 1), (("Y", "D"), 1), (("L", "L"), 0),
           (("L", "Y"), 1), (("Y", "L"), 1), (("Y", "Y"), 0)] 10 = some 20 ∧
      route_time "D" [reqL, reqY]
          [(("D", "D"), 0), (("D", "L"), 10), (("L", "D"), 10),
           (("D", "Y"), 1), (("Y", "D"), 1), (("L", "L"), 0),
           (("L", "Y"), 1), (("Y", "L"), 1), (("Y", "Y"), 0)] 10 = some 12 ∧
      ¬ ((20 : ℚ) ≤ 12)) :=
  ⟨⟨by with_unfolding_all decide, by with_unfolding_all decide,
    by with_unfolding_all decide⟩,
   ⟨by with_unfolding_all decide, by with_unfolding_all decide,
    by with_unfolding_all decide, by with_unfolding_all decide⟩⟩

/-- C7 counterexample: inputs with a non-positive demand (and, separately,
a vehicle of non-positive capacity) are not rejected with a
validation error: `build_plan` returns a `PlanCost` whose total is the
infinite cost value. -/
theorem c7_counterexample :
    greedy_build_plan gD1 h0 "D" [vD] [reqD0] 10
        = some (.ok ⟨⟨"D", [("v", ⟨"v", [reqD0]⟩)]⟩, ⊤⟩) ∧
      greedy_build_plan gD1 h0 "D" [⟨"v", 0, "D"⟩] [] 10
        = some (.ok ⟨⟨"D", [("v", ⟨"v", []⟩)]⟩, ⊤⟩) :=
  ⟨by with_unfolding_all decide, by with_unfolding_all decide⟩

/-! ## Theorems: heuristic admissibility and consistency (claim C9) -/

theorem hypotR_nonneg (x y : ℝ) : 0 ≤ hypotR x y := Real.sqrt_nonneg _

theorem hypotR_zero : hypotR 0 0 = 0 := by
  unfold hypotR; norm_num

theorem hypotR_triangle (x1 y1 x2 y2 : ℝ) :
    hypotR (x1 + x2) (y1 + y2) ≤ hypotR x1 y1 + hypotR x2 y2 := by
  have h := Complex.abs.add_le ⟨x1, y1⟩ ⟨x2, y2⟩
  have e1 : (⟨x1, y1⟩ + ⟨x2, y2⟩ : ℂ) = ⟨x1 + x2, y1 + y2⟩ := by
    apply Complex.ext <;> simp
  rw [e1] at h
  simp only [Complex.abs_apply, Complex.normSq_mk] at h
  unfold hypotR
  calc Real.sqrt ((x1 + x2) ^ 2 + (y1 + y2) ^ 2)
      = Real.sqrt ((x1 + x2) * (x1 + x2) + (y1 + y2) * (y1 + y2)) := by ring_nf
    _ ≤ _ := by
        rw [show x1 ^ 2 + y1 ^ 2 = x1 * x1 + y1 * y1 by ring,
          show x2 ^ 2 + y2 ^ 2 = x2 * x2 + y2 * y2 by ring]
        exact h

theorem le_pymax_left (a b : ℚ) : a ≤ pymax a b := by
  unfold pymax; split
  · linarith
  · exact le_refl a

theorem le_pymax_right (a b : ℚ) : b ≤ pymax a b := by
  unfold pymax; split
  · exact le_refl b
  · linarith

theorem foldl_pymax_speed_init (l : List Edge) (m : ℚ) :
    m ≤ l.foldl (fun m2 e => pymax m2 e.speed_limit) m := by
  induction l generalizing m with
  | nil => exact le_refl m
  | cons e es ih => exact le_trans (le_pymax_left m e.speed_limit) (ih _)

theorem foldl_pymax_speed_mem (l : List Edge) (m : ℚ) (e : Edge) (he : e ∈ l) :
    e.speed_limit ≤ l.foldl (fun m2 e => pymax m2 e.speed_limit) m := by
  induction l generalizing m with
  | nil => simp at he
  | cons e1 es ih =>
    rcases List.mem_cons.mp he with h | h
    · subst h
      exact le_trans (le_pymax_right m e.speed_limit) (foldl_pymax_speed_init es _)
    · exact ih _ h

theorem foldl_adj_speed_init (l : List (NodeId × List Edge)) (m : ℚ) :
    m ≤ l.foldl (fun m kv => kv.2.foldl (fun m2 e => pymax m2 e.speed_limit) m) m := by
  induction l generalizing m with
  | nil => exact le_refl m
  | cons kv rest ih =>
    exact le_trans (foldl_pymax_speed_init kv.2 m) (ih _)

theorem foldl_adj_speed_mem (l : List (NodeId × List Edge)) (m : ℚ)
    (kv : NodeId × List Edge) (hkv : kv ∈ l) (e : Edge) (he : e ∈ kv.2) :
    e.speed_limit
      ≤ l.foldl (fun m kv => kv.2.foldl (fun m2 e => pymax m2 e.speed_limit) m) m := by
  induction l generalizing m with
  | nil => simp at hkv
  | cons kv1 rest ih =>
    rcases List.mem_cons.mp hkv with h | h
    · subst h
      exact le_trans (foldl_pymax_speed_mem kv.2 m e he) (foldl_adj_speed_init rest _)
    · exact ih _ h

theorem one_le_max_speed_limit (g : CityGraph) : 1 ≤ g.max_speed_limit :=
  foldl_adj_speed_init g.adj 1

theorem speed_le_max_speed_limit (g : CityGraph) (n : NodeId) (e : Edge)
    (he : e ∈ g.neighbors n) : e.speed_limit ≤ g.max_speed_limit := by
  unfold CityGraph.neighbors at he
  cases hd : dlookup g.adj n with
  | none => rw [hd] at he; simp at he
  | some es =>
    rw [hd] at he
    simp only [Option.getD_some] at he
    exact foldl_adj_speed_mem g.adj 1 (n, es) (dlookup_mem _ _ _ hd) e he

theorem heuristic_time_some (g : CityGraph) (a b : NodeId) (na nb : Node)
    (hna : dlookup g.nodes a = some na) (hnb : dlookup g.nodes b = some nb) :
    g.heuristic_time a b
      = some (hypotR ((na.x - nb.x : ℚ) : ℝ) ((na.y - nb.y : ℚ) : ℝ)
          / ((g.max_speed_limit : ℚ) : ℝ)) := by
  unfold CityGraph.heuristic_time
  rw [hna, hnb]

theorem heuristic_time_inv (g : CityGraph) (a b : NodeId) (hab : ℝ)
    (h : g.heuristic_time a b = some hab) :
    ∃ na nb, dlookup g.nodes a = some na ∧ dlookup g.nodes b = some nb ∧
      hab = hypotR ((na.x - nb.x : ℚ) : ℝ) ((na.y - nb.y : ℚ) : ℝ)
        / ((g.max_speed_limit : ℚ) : ℝ) := by
  unfold CityGraph.heuristic_time at h
  rcases hna : dlookup g.nodes a with _ | na <;> rw [hna] at h
  · simp at h
  · rcases hnb : dlookup g.nodes b with _ | nb <;> rw [hnb] at h
    · simp at h
    · simp only [Option.some.injEq] at h
      exact ⟨na, nb, rfl, rfl, h.symm⟩

theorem heuristic_consistent_aux (g : CityGraph)
    (Hgeom : ∀ (a : NodeId) (e : Edge), e ∈ g.neighbors a →
      0 < e.speed_limit ∧
      ∃ na nd, dlookup g.nodes a = some na ∧ dlookup g.nodes e.dst = some nd ∧
        hypotR ((na.x - nd.x : ℚ) : ℝ) ((na.y - nd.y : ℚ) : ℝ) ≤ ((e.length : ℚ) : ℝ)) :
    ∀ (a b : NodeId) (e : Edge) (hab hdb : ℝ), e ∈ g.neighbors a →
      g.heuristic_time a b = some hab → g.heuristic_time e.dst b = some hdb →
      hab ≤ ((e.base_travel_time : ℚ) : ℝ) + hdb := by
  intro a b e hab hdb he h1 h2
  obtain ⟨hspeed, na, nd, hna, hnd, hlen⟩ := Hgeom a e he
  obtain ⟨na1, nb, hna1, hnb, hab_eq⟩ := heuristic_time_inv g a b hab h1
  obtain ⟨nd1, nb1, hnd1, hnb1, hdb_eq⟩ := heuristic_time_inv g e.dst b hdb h2
  rw [hna] at hna1; rw [hnd] at hnd1; rw [hnb] at hnb1
  injection hna1 with hna1; injection hnd1 with hnd1; injection hnb1 with hnb1
  subst hna1; subst hnd1; subst hnb1
  have hM : (0 : ℝ) < ((g.max_speed_limit : ℚ) : ℝ) := by
    have := one_le_max_speed_limit g
    have : (1 : ℝ) ≤ ((g.max_speed_limit : ℚ) : ℝ) := by exact_mod_cast this
    linarith
  have hspeedR : (0 : ℝ) < ((e.speed_limit : ℚ) : ℝ) := by exact_mod_cast hspeed
  have hsM : ((e.speed_limit : ℚ) : ℝ) ≤ ((g.max_speed_limit : ℚ) : ℝ) := by
    exact_mod_cast speed_le_max_speed_limit g a e he
  have hlen0 : (0 : ℝ) ≤ ((e.length : ℚ) : ℝ) :=
    le_trans (hypotR_nonneg _ _) hlen
  -- triangle inequality through the intermediate node nd
  have htri : hypotR ((na.x - nb.x : ℚ) : ℝ) ((na.y - nb.y : ℚ) : ℝ)
      ≤ hypotR ((na.x - nd.x : ℚ) : ℝ) ((na.y - nd.y : ℚ) : ℝ)
        + hypotR ((nd.x - nb.x : ℚ) : ℝ) ((nd.y - nb.y : ℚ) : ℝ) := by
    have hx : ((na.x - nb.x : ℚ) : ℝ) = ((na.x - nd.x : ℚ) : ℝ) + ((nd.x - nb.x : ℚ) : ℝ) := by
      push_cast; ring
    have hy : ((na.y - nb.y : ℚ) : ℝ) = ((na.y - nd.y : ℚ) : ℝ) + ((nd.y - nb.y : ℚ) : ℝ) := by
      push_cast; ring
    rw [hx, hy]
    exact hypotR_triangle _ _ _ _
  rw [hab_eq, hdb_eq]
  have hbtt : ((e.base_travel_time : ℚ) : ℝ)
      = ((e.length : ℚ) : ℝ) / ((e.speed_limit : ℚ) : ℝ) := by
    unfold Edge.base_travel_time
    push_cast
    ring
  rw [hbtt]
  calc hypotR ((na.x - nb.x : ℚ) : ℝ) ((na.y - nb.y : ℚ) : ℝ) / ((g.max_speed_limit : ℚ) : ℝ)
      ≤ (hypotR ((na.x - nd.x : ℚ) : ℝ) ((na.y - nd.y : ℚ) : ℝ)
          + hypotR ((nd.x - nb.x : ℚ) : ℝ) ((nd.y - nb.y : ℚ) : ℝ))
          / ((g.max_speed_limit : ℚ) : ℝ) := by gcongr
    _ = hypotR ((na.x - nd.x : ℚ) : ℝ) ((na.y - nd.y : ℚ) : ℝ) / ((g.max_speed_limit : ℚ) : ℝ)
          + hypotR ((nd.x - nb.x : ℚ) : ℝ) ((nd.y - nb.y : ℚ) : ℝ)
          / ((g.max_speed_limit : ℚ) : ℝ) := by ring
    _ ≤ ((e.length : ℚ) : ℝ) / ((g.max_speed_limit : ℚ) : ℝ)
          + hypotR ((nd.x - nb.x : ℚ) : ℝ) ((nd.y - nb.y : ℚ) : ℝ)
          / ((g.max_speed_limit : ℚ) : ℝ) := by gcongr
    _ ≤ ((e.length : ℚ) : ℝ) / ((e.speed_limit : ℚ) : ℝ)
          + hypotR ((nd.x - nb.x : ℚ) : ℝ) ((nd.y - nb.y : ℚ) : ℝ)
          / ((g.max_speed_limit : ℚ) : ℝ) := by gcongr

/-- C9 (amended): the heuristic `euclid / max_speed_limit` is consistent and
admissible (it never exceeds the summed base travel time of any edge chain)
*provided* every edge has a positive speed limit and a length at least the
euclidean distance between its endpoints' coordinates. The code never
validates this geometric hypothesis, and without it the heuristic can
overestimate (see the counterexample). -/
theorem c9_amended :
    ∀ (g : CityGraph),
      (∀ (a : NodeId) (e : Edge), e ∈ g.neighbors a →
        0 < e.speed_limit ∧
        ∃ na nd, dlookup g.nodes a = some na ∧ dlookup g.nodes e.dst = some nd ∧
          hypotR ((na.x - nd.x : ℚ) : ℝ) ((na.y - nd.y : ℚ) : ℝ)
            ≤ ((e.length : ℚ) : ℝ)) →
      (∀ (a b : NodeId) (e : Edge) (hab hdb : ℝ), e ∈ g.neighbors a →
        g.heuristic_time a b = some hab → g.heuristic_time e.dst b = some hdb →
        hab ≤ ((e.base_travel_time : ℚ) : ℝ) + hdb) ∧
      (∀ (a b : NodeId) (es : List Edge) (hab : ℝ), edgeChain g a es b →
        g.heuristic_time a b = some hab → hab ≤ ((edgeChainTime es : ℚ) : ℝ)) := by
  intro g Hgeom
  have hcons := heuristic_consistent_aux g Hgeom
  refine ⟨hcons, ?_⟩
  intro a b es
  induction es generalizing a with
  | nil =>
    intro hab hch h1
    unfold edgeChain at hch
    subst hch
    obtain ⟨na, nb, hna, hnb, hab_eq⟩ := heuristic_time_inv g a a hab h1
    rw [hna] at hnb
    injection hnb with hnb
    subst hnb
    have hx : ((na.x - na.x : ℚ) : ℝ) = 0 := by push_cast; ring
    have hy : ((na.y - na.y : ℚ) : ℝ) = 0 := by push_cast; ring
    rw [hx, hy, hypotR_zero] at hab_eq
    rw [hab_eq]
    unfold edgeChainTime
    simp
  | cons e es ih =>
    intro hab hch h1
    unfold edgeChain at hch
    obtain ⟨he, hch⟩ := hch
    obtain ⟨na1, nb, hna1, hnb, _⟩ := heuristic_time_inv g a b hab h1
    obtain ⟨_, na, nd, hna, hnd, _⟩ := Hgeom a e he
    have h2 := heuristic_time_some g e.dst b nd nb hnd hnb
    have hdb_le := ih e.dst _ hch h2
    have hstep := hcons a b e hab _ he h1 h2
    have hsum : ((edgeChainTime (e :: es) : ℚ) : ℝ)
        = ((e.base_travel_time : ℚ) : ℝ) + ((edgeChainTime es : ℚ) : ℝ) := by
      unfold edgeChainTime
      push_cast [List.map_cons, List.sum_cons]
      ring
    rw [hsum]
    calc hab ≤ ((e.base_travel_time : ℚ) : ℝ)
          + (hypotR ((nd.x - nb.x : ℚ) : ℝ) ((nd.y - nb.y : ℚ) : ℝ)
            / ((g.max_speed_limit : ℚ) : ℝ)) := hstep
      _ ≤ ((e.base_travel_time : ℚ) : ℝ) + ((edgeChainTime es : ℚ) : ℝ) := by
          exact add_le_add_left hdb_le _

/-- C9 witness: on `gAB` (both nodes at the origin, edge length 1) the
geometric hypotheses hold concretely and the admissibility conclusion is
instantiated on the one-edge chain from `A` to `B`. -/
theorem c9_witness :
    gAB.heuristic_time "A" "B" = some ((0 : ℚ) : ℝ) ∧
      edgeChain gAB "A" [⟨"A", "B", 1, 1⟩] "B" ∧
      ((0 : ℚ) : ℝ) ≤ ((edgeChainTime [⟨"A", "B", 1, 1⟩] : ℚ) : ℝ) := by
  have hgeom : ∀ (a : NodeId) (e : Edge), e ∈ gAB.neighbors a →
      0 < e.speed_limit ∧
      ∃ na nd, dlookup gAB.nodes a = some na ∧ dlookup gAB.nodes e.dst = some nd ∧
        hypotR ((na.x - nd.x : ℚ) : ℝ) ((na.y - nd.y : ℚ) : ℝ)
          ≤ ((e.length : ℚ) : ℝ) := by
    intro a e he
    unfold CityGraph.neighbors at he
    by_cases hA : a = "A"
    · subst hA
      rw [show dlookup gAB.adj "A" = some [⟨"A", "B", 1, 1⟩] from
        by with_unfolding_all rfl] at he
      simp only [Option.getD_some, List.mem_singleton] at he
      subst he
      refine ⟨by norm_num, ⟨"A", 0, 0⟩, ⟨"B", 0, 0⟩, by with_unfolding_all rfl,
        by with_unfolding_all rfl, ?_⟩
      have hz : ((0 - 0 : ℚ) : ℝ) = 0 := by norm_num
      rw [hz, hypotR_zero]
      norm_num
    · by_cases hB : a = "B"
      · subst hB
        rw [show dlookup gAB.adj "B" = some [] from by with_unfolding_all rfl] at he
        simp at he
      · have hnone : dlookup gAB.adj a = none := by
          show dlookup [("A", [Edge.mk "A" "B" 1 1]), ("B", [])] a = none
          simp only [dlookup]
          rw [if_neg (fun hh => hA hh.symm), if_neg (fun hh => hB hh.symm)]
        rw [hnone] at he
        simp at he
  have hchain : edgeChain gAB "A" [⟨"A", "B", 1, 1⟩] "B" :=
    ⟨by with_unfolding_all decide, rfl⟩
  have hheur : gAB.heuristic_time "A" "B" = some ((0 : ℚ) : ℝ) :=
    gAB_heuristic_agrees "A" (by decide) "B" (by decide)
  exact ⟨hheur, hchain,
    (c9_amended gAB hgeom).2 "A" "B" [⟨"A", "B", 1, 1⟩] ((0 : ℚ) : ℝ) hchain hheur⟩

/-- C9 counterexample: on `gAdm` the edge from `A` to `B` has length 1 but
the euclidean distance between the endpoints is 5, so the heuristic value 5
strictly exceeds the travel time 1 of an actual path from `A` to `B`: the
heuristic overestimates the true shortest travel time and is not
admissible. -/
theorem c9_counterexample :
    gAdm.heuristic_time "A" "B" = some (5 : ℝ) ∧
      edgeChain gAdm "A" [⟨"A", "B", 1, 1⟩] "B" ∧
      edgeChainTime [⟨"A", "B", 1, 1⟩] = 1 ∧
      ¬ ((5 : ℝ) ≤ ((edgeChainTime [⟨"A", "B", 1, 1⟩] : ℚ) : ℝ)) := by
  have htime : edgeChainTime [(⟨"A", "B", 1, 1⟩ : Edge)] = 1 := by
    with_unfolding_all decide
  refine ⟨?_, ⟨by with_unfolding_all decide, rfl⟩, htime, ?_⟩
  · rw [heuristic_time_some gAdm "A" "B" ⟨"A", 0, 0⟩ ⟨"B", 3, 4⟩
      (by with_unfolding_all rfl) (by with_unfolding_all rfl)]
    rw [show gAdm.max_speed_limit = 1 from by with_unfolding_all rfl]
    have h5 : hypotR ((0 - 3 : ℚ) : ℝ) ((0 - 4 : ℚ) : ℝ) = 5 := by
      unfold hypotR
      push_cast
      rw [show ((0:ℝ) - 3) ^ 2 + (0 - 4) ^ 2 = 25 by norm_num]
      rw [show (25 : ℝ) = 5 ^ 2 by norm_num, Real.sqrt_sq (by norm_num : (0:ℝ) ≤ 5)]
    rw [h5]
    norm_num
  · rw [htime]
    norm_num

/-! ## Theorems: A* soundness (claim C4) -/

theorem AInv_update (g : CityGraph) (start current : NodeId) (e : Edge)
    (st : AState) (gcur : ℚ) (hgcur : st.g_score current = some gcur)
    (he : e ∈ g.neighbors current)
    (Hw : ∀ n, ∀ e1 ∈ g.neighbors n, 0 ≤ e1.base_travel_time)
    (hinv : AInv g start st)
    (hlt : ∀ gnb, st.g_score e.dst = some gnb → gcur + e.base_travel_time < gnb)
    (os : List (ℚ × NodeId)) :
    AInv g start
      { open_set := os
        came_from := fun n => if n = e.dst then some current else st.came_from n
        g_score := fun n =>
          if n = e.dst then some (gcur + e.base_travel_time) else st.g_score n
        closed := st.closed } := by
  obtain ⟨hstart, hnn, hcf⟩ := hinv
  have hw : 0 ≤ e.base_travel_time := Hw current e he
  have hgcur0 : 0 ≤ gcur := hnn current gcur hgcur
  have hcurne : current ≠ e.dst := by
    intro hcd
    have := hlt gcur (by rw [← hcd]; exact hgcur)
    linarith
  refine ⟨?_, ?_, ?_⟩
  · show (if start = e.dst then some (gcur + e.base_travel_time)
      else st.g_score start) = some 0
    by_cases hsd : start = e.dst
    · exfalso
      have := hlt 0 (by rw [← hsd]; exact hstart)
      linarith
    · rw [if_neg hsd]; exact hstart
  · intro n q hq
    by_cases hnd : n = e.dst
    · simp only [if_pos hnd, Option.some.injEq] at hq
      linarith [hq.symm.le]
    · simp only [if_neg hnd] at hq
      exact hnn n q hq
  · intro n c hc
    by_cases hnd : n = e.dst
    · simp only [if_pos hnd, Option.some.injEq] at hc
      subst hc
      refine ⟨e, he, hnd.symm, gcur + e.base_travel_time, gcur, ?_, ?_, le_refl _⟩
      · show (if n = e.dst then some (gcur + e.base_travel_time)
          else st.g_score n) = _
        rw [if_pos hnd]
      · show (if current = e.dst then some (gcur + e.base_travel_time)
          else st.g_score current) = some gcur
        rw [if_neg hcurne]; exact hgcur
    · simp only [if_neg hnd] at hc
      obtain ⟨e1, he1, hdst, qn, qc, hqn, hqc, hle⟩ := hcf n c hc
      have hqn' : (if n = e.dst then some (gcur + e.base_travel_time)
          else st.g_score n) = some qn := by rw [if_neg hnd]; exact hqn
      by_cases hcd : c = e.dst
      · have hqc2 : st.g_score e.dst = some qc := by rw [← hcd]; exact hqc
        have himp := hlt qc hqc2
        refine ⟨e1, he1, hdst, qn, gcur + e.base_travel_time, hqn', ?_, ?_⟩
        · show (if c = e.dst then some (gcur + e.base_travel_time)
            else st.g_score c) = _
          rw [if_pos hcd]
        · have hw1 : 0 ≤ e1.base_travel_time := Hw c e1 he1
          linarith
      · refine ⟨e1, he1, hdst, qn, qc, hqn', ?_, hle⟩
        show (if c = e.dst then some (gcur + e.base_travel_time)
          else st.g_score c) = some qc
        rw [if_neg hcd]; exact hqc

theorem relaxEdges_inv (g : CityGraph) (h : NodeId → NodeId → ℚ)
    (start goal current : NodeId)
    (Hw : ∀ n, ∀ e ∈ g.neighbors n, 0 ≤ e.base_travel_time) :
    ∀ (es : List Edge) (st st' : AState), (∀ e ∈ es, e ∈ g.neighbors current) →
      AInv g start st → relaxEdges h goal current es st = some st' →
      AInv g start st' := by
  intro es
  induction es with
  | nil =>
    intro st st' _ hinv hrel
    simp only [relaxEdges, Option.some.injEq] at hrel
    rw [← hrel]; exact hinv
  | cons e es ih =>
    intro st st' hes hinv hrel
    have he : e ∈ g.neighbors current := hes e (List.mem_cons_self _ _)
    have hes' : ∀ e1 ∈ es, e1 ∈ g.neighbors current :=
      fun e1 h1 => hes e1 (List.mem_cons_of_mem _ h1)
    simp only [relaxEdges] at hrel
    split at hrel
    · exact absurd hrel (by simp)
    · next gcur hgcur =>
      split at hrel
      · next gnb hgnb =>
        split at hrel
        · exact ih st st' hes' hinv hrel
        · next hnotge =>
          have hlt : ∀ g1, st.g_score e.dst = some g1 →
              gcur + e.base_travel_time < g1 := by
            intro g1 hg1
            rw [hgnb] at hg1
            injection hg1 with hg1
            subst hg1
            exact lt_of_not_ge hnotge
          exact ih _ st' hes'
            (AInv_update g start current e st gcur hgcur he Hw hinv hlt _) hrel
      · next hnone =>
        have hlt : ∀ g1, st.g_score e.dst = some g1 →
            gcur + e.base_travel_time < g1 := by
          intro g1 hg1
          rw [hnone] at hg1
          exact absurd hg1 (by simp)
        exact ih _ st' hes'
          (AInv_update g start current e st gcur hgcur he Hw hinv hlt _) hrel

theorem reconstruct_linked (cf : NodeId → Option NodeId) (start : NodeId) :
    ∀ (fuel : Nat) (cur : NodeId) (acc p : List NodeId),
      acc.head? = some cur → Linked cf acc →
      reconstruct_path cf start fuel cur acc = some p →
      p.head? = some start ∧ Linked cf p ∧ p.getLast? = acc.getLast? := by
  intro fuel
  induction fuel with
  | zero =>
    intro cur acc p hacc hlink hrec
    unfold reconstruct_path at hrec
    split at hrec
    · next hcs =>
      injection hrec with hrec
      subst hrec
      subst hcs
      exact ⟨hacc, hlink, rfl⟩
    · exact absurd hrec (by simp)
  | succ fuel ih =>
    intro cur acc p hacc hlink hrec
    unfold reconstruct_path at hrec
    split at hrec
    · next hcs =>
      injection hrec with hrec
      subst hrec
      subst hcs
      exact ⟨hacc, hlink, rfl⟩
    · next hcs =>
      cases hcf : cf cur with
      | none => rw [hcf] at hrec; exact absurd hrec (by simp)
      | some cnext =>
        rw [hcf] at hrec
        obtain ⟨t, rfl⟩ : ∃ t, acc = cur :: t := by
          cases acc with
          | nil => simp at hacc
          | cons a t =>
            injection hacc with hacc
            subst hacc
            exact ⟨t, rfl⟩
        have hlink' : Linked cf (cnext :: cur :: t) := ⟨hcf, hlink⟩
        have hres := ih cnext (cnext :: cur :: t) p rfl hlink' hrec
        refine ⟨hres.1, hres.2.1, ?_⟩
        rw [hres.2.2]
        rfl

theorem linked_chain_cost (g : CityGraph) (gs : NodeId → Option ℚ)
    (cf : NodeId → Option NodeId)
    (hcf : ∀ n c, cf n = some c →
      ∃ e ∈ g.neighbors c, e.dst = n ∧
        ∃ qn qc, gs n = some qn ∧ gs c = some qc ∧
          qc + e.base_travel_time ≤ qn) :
    ∀ (p : List NodeId) (a b : NodeId) (qa qb : ℚ),
      Linked cf p → p.head? = some a → p.getLast? = some b →
      gs a = some qa → gs b = some qb →
      ∃ es, PathRealized g p es ∧ qa + edgeChainTime es ≤ qb := by
  intro p
  induction p with
  | nil => intro a b qa qb _ hh; simp at hh
  | cons x rest ih =>
    intro a b qa qb hlink hh hl hqa hqb
    injection hh with hh
    subst hh
    cases rest with
    | nil =>
      simp only [List.getLast?_singleton, Option.some.injEq] at hl
      subst hl
      rw [hqa] at hqb
      injection hqb with hqb
      refine ⟨[], trivial, ?_⟩
      unfold edgeChainTime
      simp [hqb]
    | cons y rest2 =>
      obtain ⟨hcfy, hlink2⟩ := hlink
      obtain ⟨e, he, hdst, qn, qc, hqn, hqc, hle⟩ := hcf y x hcfy
      rw [hqa] at hqc
      injection hqc with hqc
      have hl2 : (y :: rest2).getLast? = some b := by
        rw [← hl]; rfl
      obtain ⟨es, hreal, hsum⟩ := ih y b qn qb hlink2 rfl hl2 hqn hqb
      refine ⟨e :: es, ⟨he, hdst, hreal⟩, ?_⟩
      have : edgeChainTime (e :: es) = e.base_travel_time + edgeChainTime es := by
        unfold edgeChainTime
        simp
      rw [this]
      have hle' : qa + e.base_travel_time ≤ qn := by rw [hqc]; exact hle
      linarith

theorem astarLoop_sound (g : CityGraph) (h : NodeId → NodeId → ℚ)
    (start goal : NodeId)
    (Hw : ∀ n, ∀ e ∈ g.neighbors n, 0 ≤ e.base_travel_time) :
    ∀ (fuel : Nat) (st : AState) (p : List NodeId) (c : ℚ),
      AInv g start st →
      astarLoop g h start goal fuel st = some (some (p, c)) →
      p.head? = some start ∧ p.getLast? = some goal ∧
        ∃ es, PathRealized g p es ∧ edgeChainTime es ≤ c := by
  intro fuel
  induction fuel with
  | zero =>
    intro st p c _ hrun
    exact absurd hrun (by simp [astarLoop])
  | succ fuel ih =>
    intro st p c hinv hrun
    simp only [astarLoop] at hrun
    split at hrun
    · exact absurd hrun (by simp)
    · next current rest hpop =>
      split at hrun
      · exact ih (AState.mk rest st.came_from st.g_score st.closed) p c hinv hrun
      · split at hrun
        · exact absurd hrun (by simp)
        · next gcur hgcur =>
          split at hrun
          · next hcg =>
            subst hcg
            split at hrun
            · exact absurd hrun (by simp)
            · next p1 hrec =>
              simp only [Option.some.injEq, Prod.mk.injEq] at hrun
              obtain ⟨hp, hc⟩ := hrun
              subst hp
              subst hc
              obtain ⟨hhead, hlinkp, hlast⟩ :=
                reconstruct_linked st.came_from start fuel current [current] p1 rfl
                  trivial hrec
              have hlast2 : p1.getLast? = some current := by rw [hlast]; rfl
              obtain ⟨hstart0, hnn, hcf⟩ := hinv
              obtain ⟨es, hreal, hsum⟩ :=
                linked_chain_cost g st.g_score st.came_from hcf p1 start current 0 gcur
                  hlinkp hhead hlast2 hstart0 hgcur
              exact ⟨hhead, hlast2, es, hreal, by linarith⟩
          · split at hrun
            · exact absurd hrun (by simp)
            · next st2 hrel =>
              have hinv2 : AInv g start st2 := by
                refine relaxEdges_inv g h start goal current Hw
                  (g.neighbors current) _ st2 (fun e he => he) ?_ hrel
                exact hinv
              exact ih st2 p c hinv2 hrun

/-- C4 (amended): when every edge's base travel time is nonnegative, any
path returned by `astar_shortest_path` starts at `start`, ends at `goal`,
and is realized by a chain of graph edges whose summed base travel times
are *at most* the returned cost. Equality does not hold in general: with
the unvalidated geometry the heuristic can be inconsistent, a closed node
can be improved without being reopened, and the returned `g_score` is then
stale (strictly larger than the reconstructed path's cost) — see the
counterexample. -/
theorem c4_amended :
    ∀ (g : CityGraph) (h : NodeId → NodeId → ℚ) (start goal : NodeId)
      (fuel : Nat) (p : List NodeId) (c : ℚ),
      (∀ n, ∀ e ∈ g.neighbors n, 0 ≤ e.base_travel_time) →
      astar_shortest_path g h start goal fuel = some (some (p, c)) →
      p.head? = some start ∧ p.getLast? = some goal ∧
        ∃ es, PathRealized g p es ∧ edgeChainTime es ≤ c := by
  intro g h start goal fuel p c Hw hrun
  unfold astar_shortest_path at hrun
  split at hrun
  · next hsg =>
    subst hsg
    simp only [Option.some.injEq, Prod.mk.injEq] at hrun
    obtain ⟨hp, hc⟩ := hrun
    subst hp
    subst hc
    refine ⟨rfl, rfl, [], trivial, ?_⟩
    unfold edgeChainTime
    simp
  · refine astarLoop_sound g h start goal Hw fuel _ p c ?_ hrun
    refine ⟨by simp, ?_, ?_⟩
    · intro n q hq
      by_cases hn : n = start
      · simp only [if_pos hn, Option.some.injEq] at hq
        simp [← hq]
      · simp only [if_neg hn] at hq
        exact absurd hq (by simp)
    · intro n cc hcc
      exact absurd hcc (by simp)

theorem gAB_edges_nonneg :
    ∀ n : NodeId, ∀ e ∈ gAB.neighbors n, 0 ≤ e.base_travel_time := by
  intro a e he
  unfold CityGraph.neighbors at he
  by_cases hA : a = "A"
  · subst hA
    rw [show dlookup gAB.adj "A" = some [⟨"A", "B", 1, 1⟩] from
      by with_unfolding_all rfl] at he
    simp only [Option.getD_some, List.mem_singleton] at he
    subst he
    show (0 : ℚ) ≤ 1 / 1
    norm_num
  · by_cases hB : a = "B"
    · subst hB
      rw [show dlookup gAB.adj "B" = some [] from by with_unfolding_all rfl] at he
      simp at he
    · have hnone : dlookup gAB.adj a = none := by
        show dlookup [("A", [Edge.mk "A" "B" 1 1]), ("B", [])] a = none
        simp only [dlookup]
        rw [if_neg (fun hh => hA hh.symm), if_neg (fun hh => hB hh.symm)]
      rw [hnone] at he
      simp at he

/-- C4 witness: a concrete two-node run where A* returns the edge path from
`A` to `B` with cost 1, instantiating the amended soundness statement. -/
theorem c4_witness :
    astar_shortest_path gAB h0 "A" "B" 10 = some (some (["A", "B"], 1)) ∧
      (["A", "B"] : List NodeId).head? = some "A" ∧
      (["A", "B"] : List NodeId).getLast? = some "B" ∧
      (∃ es, PathRealized gAB ["A", "B"] es ∧ edgeChainTime es ≤ 1) := by
  have hrun : astar_shortest_path gAB h0 "A" "B" 10 = some (some (["A", "B"], 1)) := by
    with_unfolding_all decide
  have hres := c4_amended gAB h0 "A" "B" 10 ["A", "B"] 1 gAB_edges_nonneg hrun
  exact ⟨hrun, hres.1, hres.2.1, hres.2.2⟩

/-! ## Theorems: appending a stop under a well-behaved distance oracle (claim C3) -/

theorem rtLoop_append (depot : NodeId) (dist : DistMatrix) (cap : ℤ)
    (s1 s2 : List DeliveryRequest) :
    ∀ st, rtLoop depot dist cap (s1 ++ s2) st =
      match rtLoop depot dist cap s1 st with
      | none => none
      | some none => some none
      | some (some st1) => rtLoop depot dist cap s2 st1 := by
  induction s1 with
  | nil => intro st; simp [rtLoop]
  | cons r s1 ih =>
    intro st
    obtain ⟨t, cur, capl⟩ := st
    simp only [List.cons_append, rtLoop]
    split
    · rfl
    · split
      · rfl
      · next st1 =>
        split
        · rfl
        · next w _ => exact ih _

theorem rtLoop_total_le (depot : NodeId) (dist : DistMatrix) (cap : ℤ)
    (Hnn : ∀ k x, dlookup dist k = some x → 0 ≤ x) :
    ∀ (s : List DeliveryRequest) (t : ℚ) (cur : NodeId) (capl : ℤ)
      (t' : ℚ) (cur' : NodeId) (capl' : ℤ),
      rtLoop depot dist cap s (t, cur, capl) = some (some (t', cur', capl')) →
      t ≤ t' := by
  intro s
  induction s with
  | nil =>
    intro t cur capl t' cur' capl' hrun
    simp only [rtLoop, Option.some.injEq, Prod.mk.injEq] at hrun
    exact le_of_eq hrun.1
  | cons r s ih =>
    intro t cur capl t' cur' capl' hrun
    simp only [rtLoop] at hrun
    split at hrun
    · exact absurd hrun (by simp)
    · split at hrun
      · exact absurd hrun (by simp)
      · next t1 cur1 capl1 hreset =>
        split at hrun
        · exact absurd hrun (by simp)
        · next w hw =>
          have hwge : 0 ≤ w := Hnn _ _ hw
          have hmid : t ≤ t1 := by
            split at hreset
            · split at hreset
              · rw [Option.map_eq_some'] at hreset
                obtain ⟨w0, hw0l, heq⟩ := hreset
                simp only [Prod.mk.injEq] at heq
                have : 0 ≤ w0 := Hnn _ _ hw0l
                linarith [heq.1.symm.le]
              · simp only [Option.some.injEq, Prod.mk.injEq] at hreset
                exact le_of_eq hreset.1
            · simp only [Option.some.injEq, Prod.mk.injEq] at hreset
              exact le_of_eq hreset.1
          have htail := ih _ _ _ _ _ _ hrun
          linarith

theorem route_time_nonneg (depot : NodeId) (s : List DeliveryRequest)
    (dist : DistMatrix) (cap : ℤ) (c : ℚ)
    (Hnn : ∀ k x, dlookup dist k = some x → 0 ≤ x)
    (h : route_time depot s dist cap = some c) : 0 ≤ c := by
  unfold route_time at h
  split at h
  · injection h with h; rw [← h]
  · split at h
    · injection h with h; rw [← h]; unfold INF; positivity
    · split at h
      · exact absurd h (by simp)
      · injection h with h; rw [← h]; unfold INF; positivity
      · next t cur capl hrl =>
        have ht : 0 ≤ t :=
          rtLoop_total_le depot dist cap Hnn s 0 depot cap t cur capl hrl
        split at h
        · rw [Option.map_eq_some'] at h
          obtain ⟨w, hwl, hweq⟩ := h
          have : 0 ≤ w := Hnn _ _ hwl
          rw [← hweq]
          linarith
        · injection h with h; rw [← h]; exact ht

theorem route_time_append_mono (depot : NodeId) (stops : List DeliveryRequest)
    (r : DeliveryRequest) (dist : DistMatrix) (cap : ℤ) (c c' : ℚ)
    (Hnn : ∀ k x, dlookup dist k = some x → 0 ≤ x)
    (Htri : ∀ (a b : NodeId) (x y z : ℚ), dlookup dist (a, depot) = some x →
      dlookup dist (a, b) = some y → dlookup dist (b, depot) = some z →
      x ≤ y + z)
    (Hd : 0 < r.demand)
    (h1 : route_time depot stops dist cap = some c)
    (h2 : route_time depot (stops ++ [r]) dist cap = some c') :
    c ≤ c' := by
  by_cases hs : stops = []
  · subst hs
    have hc : c = 0 := by
      unfold route_time at h1
      rw [if_pos rfl] at h1
      injection h1 with h1
      exact h1.symm
    rw [hc]
    exact route_time_nonneg depot _ dist cap c' Hnn h2
  · have hs2 : ¬(stops ++ [r] = []) := by simp
    by_cases hcap : cap ≤ 0
    · have hc : c = INF := by
        unfold route_time at h1
        rw [if_neg hs, if_pos hcap] at h1
        injection h1 with h1
        exact h1.symm
      have hc' : c' = INF := by
        unfold route_time at h2
        rw [if_neg hs2, if_pos hcap] at h2
        injection h2 with h2
        exact h2.symm
      rw [hc, hc']
    · unfold route_time at h1 h2
      rw [if_neg hs, if_neg hcap] at h1
      rw [if_neg hs2, if_neg hcap, rtLoop_append] at h2
      split at h1
      · exact absurd h1 (by simp)
      · -- early INF inside stops: both routes return INF
        next hrl =>
        rw [hrl] at h2
        injection h1 with h1
        have h2' : (some INF : Option ℚ) = some c' := h2
        injection h2' with h2'
        rw [← h1, ← h2']
      · next t cur capl hrl =>
        rw [hrl] at h2
        have ht0 : 0 ≤ t :=
          rtLoop_total_le depot dist cap Hnn stops 0 depot cap t cur capl hrl
        -- analyze the processing of the appended stop r
        have h2' : (match rtLoop depot dist cap [r] (t, cur, capl) with
            | none => none
            | some none => some INF
            | some (some (total, cur2, _)) =>
              if cur2 ≠ depot then
                Option.map (fun w => total + w) (dlookup dist (cur2, depot))
              else some total) = some c' := h2
        clear h2
        split at h2'
        · exact absurd h2' (by simp)
        · -- r triggered the early INF return: impossible since 0 < r.demand
          next hr2 =>
          simp only [rtLoop] at hr2
          rw [if_neg (by omega : ¬ r.demand ≤ 0)] at hr2
          split at hr2
          · exact absurd hr2 (by simp)
          · split at hr2
            · exact absurd hr2 (by simp)
            · exact absurd hr2 (by simp)
        · next t2 cur2 capl2 hr2 =>
          -- unpack the single step on r
          simp only [rtLoop] at hr2
          rw [if_neg (by omega : ¬ r.demand ≤ 0)] at hr2
          split at hr2
          · exact absurd hr2 (by simp)
          · next t1 cur1 capl1 hmid =>
            split at hr2
            · exact absurd hr2 (by simp)
            · next w1 hw1 =>
              simp only [Option.some.injEq, Prod.mk.injEq] at hr2
              obtain ⟨hteq, hcur2, _⟩ := hr2
              subst hcur2
              -- relate c to the walk state (t, cur)
              -- and c' to t2 = t1 + w1 plus the final leg
              have hw1ge : 0 ≤ w1 := Hnn _ _ hw1
              -- analyze the reset branch
              have hmid' : (t1 = t ∧ cur1 = cur) ∨
                  (cur ≠ depot ∧ cur1 = depot ∧
                    ∃ w0, dlookup dist (cur, depot) = some w0 ∧ t1 = t + w0) ∨
                  (cur = depot ∧ cur1 = cur ∧ t1 = t) := by
                split at hmid
                · split at hmid
                  · next hne =>
                    rw [Option.map_eq_some'] at hmid
                    obtain ⟨w0, hw0l, heq⟩ := hmid
                    simp only [Prod.mk.injEq] at heq
                    exact Or.inr (Or.inl ⟨hne, heq.2.1.symm, w0, hw0l, heq.1.symm⟩)
                  · next hne =>
                    simp only [Option.some.injEq, Prod.mk.injEq] at hmid
                    push_neg at hne
                    exact Or.inr (Or.inr ⟨hne, hmid.2.1.symm, hmid.1.symm⟩)
                · simp only [Option.some.injEq, Prod.mk.injEq] at hmid
                  exact Or.inl ⟨hmid.1.symm, hmid.2.1.symm⟩
              subst hteq
              rcases hmid' with ⟨ht1, hcur1⟩ | ⟨hne, hcur1, w0, hw0l, ht1⟩ |
                ⟨hdep, hcur1, ht1⟩
              · -- no reset
                subst ht1
                rw [hcur1] at hw1
                by_cases hcd : cur = depot
                · rw [if_neg (by simp [hcd] : ¬ cur ≠ depot)] at h1
                  injection h1 with h1
                  split at h2'
                  · rw [Option.map_eq_some'] at h2'
                    obtain ⟨w2, hw2l, hc'⟩ := h2'
                    have : 0 ≤ w2 := Hnn _ _ hw2l
                    rw [← h1, ← hc']
                    linarith
                  · injection h2' with h2'
                    rw [← h1, ← h2']
                    linarith
                · rw [if_pos hcd] at h1
                  rw [Option.map_eq_some'] at h1
                  obtain ⟨w, hwl, hc⟩ := h1
                  split at h2'
                  · next hrd =>
                    rw [Option.map_eq_some'] at h2'
                    obtain ⟨w2, hw2l, hc'⟩ := h2'
                    have htri := Htri cur r.node w w1 w2 hwl hw1 hw2l
                    rw [← hc, ← hc']
                    linarith
                  · next hrd =>
                    push_neg at hrd
                    rw [hrd] at hw1
                    rw [hwl] at hw1
                    injection hw1 with hw1
                    injection h2' with h2'
                    rw [← hc, ← h2']
                    linarith
              · -- reset with a leg home first
                subst ht1
                rw [if_pos hne] at h1
                rw [Option.map_eq_some'] at h1
                obtain ⟨w, hwl, hc⟩ := h1
                rw [hwl] at hw0l
                injection hw0l with hw0l
                subst hw0l
                split at h2'
                · rw [Option.map_eq_some'] at h2'
                  obtain ⟨w2, hw2l, hc'⟩ := h2'
                  have : 0 ≤ w2 := Hnn _ _ hw2l
                  rw [← hc, ← hc']
                  linarith
                · injection h2' with h2'
                  rw [← hc, ← h2']
                  linarith
              · -- reset while already at the depot
                subst ht1
                rw [if_neg (by simp [hdep] : ¬ cur ≠ depot)] at h1
                injection h1 with h1
                split at h2'
                · rw [Option.map_eq_some'] at h2'
                  obtain ⟨w2, hw2l, hc'⟩ := h2'
                  have : 0 ≤ w2 := Hnn _ _ hw2l
                  rw [← h1, ← hc']
                  linarith
                · injection h2' with h2'
                  rw [← h1, ← h2']
                  linarith

theorem rcLoop_append (g : CityGraph) (h : NodeId → NodeId → ℚ) (depot : NodeId)
    (cap : ℤ) (fuel : Nat) (s1 s2 : List DeliveryRequest) :
    ∀ st, rcLoop g h depot cap fuel (s1 ++ s2) st =
      match rcLoop g h depot cap fuel s1 st with
      | none => none
      | some none => some none
      | some (some st1) => rcLoop g h depot cap fuel s2 st1 := by
  induction s1 with
  | nil => intro st; simp [rcLoop]
  | cons r s1 ih =>
    intro st
    obtain ⟨t, cur, capl⟩ := st
    simp only [List.cons_append, rcLoop]
    repeat' split
    all_goals first | rfl | exact ih _ | simp_all

theorem rcLoop_total_le (g : CityGraph) (h : NodeId → NodeId → ℚ) (depot : NodeId)
    (cap : ℤ) (fuel : Nat)
    (Hnn : ∀ (a b : NodeId) (p : List NodeId) (q : ℚ),
      astar_shortest_path g h a b fuel = some (some (p, q)) → 0 ≤ q) :
    ∀ (s : List DeliveryRequest) (t : ℚ) (cur : NodeId) (capl : ℤ)
      (t' : ℚ) (cur' : NodeId) (capl' : ℤ),
      rcLoop g h depot cap fuel s (t, cur, capl) = some (some (t', cur', capl')) →
      t ≤ t' := by
  intro s
  induction s with
  | nil =>
    intro t cur capl t' cur' capl' hrun
    simp only [rcLoop, Option.some.injEq, Prod.mk.injEq] at hrun
    exact le_of_eq hrun.1
  | cons r s ih =>
    intro t cur capl t' cur' capl' hrun
    simp only [rcLoop] at hrun
    split at hrun
    · exact absurd hrun (by simp)
    · next hreset =>
      split at hrun
      · exact absurd hrun (by simp)
      · exact absurd hrun (by simp)
      · next t1 cur1 hmid =>
        split at hrun
        · exact absurd hrun (by simp)
        · exact absurd hrun (by simp)
        · next p1 w1 hleg =>
          have hw1 : 0 ≤ w1 := Hnn _ _ _ _ hleg
          have hmid' : t ≤ t1 := by
            split at hmid
            · split at hmid
              · split at hmid
                · exact absurd hmid (by simp)
                · exact absurd hmid (by simp)
                · next p0 w0 hleg0 =>
                  have hw0 : 0 ≤ w0 := Hnn _ _ _ _ hleg0
                  simp only [Option.some.injEq, Prod.mk.injEq] at hmid
                  linarith [hmid.1.symm.le]
              · simp only [Option.some.injEq, Prod.mk.injEq] at hmid
                exact le_of_eq hmid.1
            · simp only [Option.some.injEq, Prod.mk.injEq] at hmid
              exact le_of_eq hmid.1
          have htail := ih _ _ _ _ _ _ hrun
          linarith

theorem route_cost_append_mono (g : CityGraph) (h : NodeId → NodeId → ℚ)
    (fuel : Nat) (v : Vehicle) (depot : NodeId) (stops : List DeliveryRequest)
    (r : DeliveryRequest) (c c' : WithTop ℚ)
    (Hnn : ∀ (a b : NodeId) (p : List NodeId) (q : ℚ),
      astar_shortest_path g h a b fuel = some (some (p, q)) → 0 ≤ q)
    (Htrans : ∀ (a b : NodeId) (pab : List NodeId) (qab : ℚ)
        (pbd : List NodeId) (qbd : ℚ),
      astar_shortest_path g h a b fuel = some (some (pab, qab)) →
      astar_shortest_path g h b depot fuel = some (some (pbd, qbd)) →
      ∃ pad qad, astar_shortest_path g h a depot fuel = some (some (pad, qad)) ∧
        qad ≤ qab + qbd)
    (h1 : route_cost g h v stops depot true fuel = some c)
    (h2 : route_cost g h v (stops ++ [r]) depot true fuel = some c') :
    c ≤ c' := by
  unfold route_cost at h1 h2
  split at h1
  · next hcap =>
    rw [if_pos hcap] at h2
    injection h1 with h1
    injection h2 with h2
    rw [← h1, ← h2]
  · next hcap =>
    rw [if_neg hcap, rcLoop_append] at h2
    split at h1
    · exact absurd h1 (by simp)
    · next hrl =>
      rw [hrl] at h2
      injection h1 with h1
      have h2e : (some (⊤ : WithTop ℚ) : Option (WithTop ℚ)) = some c' := h2
      injection h2e with h2e
      rw [← h1, ← h2e]
    · next t cur capl hrl =>
      rw [hrl] at h2
      have h2b : (match rcLoop g h depot v.capacity fuel [r] (t, cur, capl) with
          | none => none
          | some none => some (⊤ : WithTop ℚ)
          | some (some (t2, cur2, _)) =>
            if true && cur2 ≠ depot then
              match astar_shortest_path g h cur2 depot fuel with
              | none => none
              | some none => some (⊤ : WithTop ℚ)
              | some (some (p2, travel)) => some ((t2 + travel : ℚ) : WithTop ℚ)
            else some ((t2 : ℚ) : WithTop ℚ)) = some c' := h2
      clear h2
      split at h2b
      · exact absurd h2b (by simp)
      · injection h2b with h2b
        rw [← h2b]
        exact le_top
      · next t2 cur2 capl2 hr2 =>
        -- unpack the single processing step of r
        simp only [rcLoop] at hr2
        split at hr2
        · exact absurd hr2 (by simp)
        · next hdem =>
          split at hr2
          · exact absurd hr2 (by simp)
          · exact absurd hr2 (by simp)
          · next t1 cur1 hmid =>
            split at hr2
            · exact absurd hr2 (by simp)
            · exact absurd hr2 (by simp)
            · next p1 w1 hleg =>
              simp only [Option.some.injEq, Prod.mk.injEq] at hr2
              obtain ⟨hteq, hcur2, _⟩ := hr2
              subst hcur2
              have hw1 : 0 ≤ w1 := Hnn _ _ _ _ hleg
              have hmid' : (t1 = t ∧ cur1 = cur) ∨
                  (cur ≠ depot ∧ cur1 = depot ∧
                    ∃ p0 w0, astar_shortest_path g h cur depot fuel
                      = some (some (p0, w0)) ∧ t1 = t + w0) ∨
                  (cur = depot ∧ cur1 = cur ∧ t1 = t) := by
                split at hmid
                · split at hmid
                  · next hne =>
                    split at hmid
                    · exact absurd hmid (by simp)
                    · exact absurd hmid (by simp)
                    · next p0 w0 hleg0 =>
                      simp only [Option.some.injEq, Prod.mk.injEq] at hmid
                      exact Or.inr (Or.inl ⟨hne, hmid.2.symm, p0, w0, hleg0,
                        hmid.1.symm⟩)
                  · next hne =>
                    simp only [Option.some.injEq, Prod.mk.injEq] at hmid
                    push_neg at hne
                    exact Or.inr (Or.inr ⟨hne, hmid.2.symm, hmid.1.symm⟩)
                · simp only [Option.some.injEq, Prod.mk.injEq] at hmid
                  exact Or.inl ⟨hmid.1.symm, hmid.2.symm⟩
              -- the single final bound, parametric in the return-leg cost
              have hfin : ∀ dq : ℚ, 0 ≤ dq →
                  (r.node = depot ∨
                    ∃ p2, astar_shortest_path g h r.node depot fuel
                      = some (some (p2, dq))) →
                  c ≤ ((t2 + dq : ℚ) : WithTop ℚ) := by
                intro dq hdq hcase
                rcases hmid' with ⟨ht1, hcur1⟩ | ⟨hne, hcur1, p0, w0, hleg0, ht1⟩ |
                  ⟨hdep, hcur1, ht1⟩
                · -- no capacity reset
                  subst ht1
                  rw [hcur1] at hleg
                  by_cases hcd : cur = depot
                  · simp only [hcd, ne_eq, not_true_eq_false, Bool.and_false,
                      Bool.false_eq_true, if_false] at h1
                    injection h1 with h1
                    rw [← h1, ← hteq, WithTop.coe_le_coe]
                    linarith
                  · rw [if_pos (by simp [hcd])] at h1
                    split at h1
                    · exact absurd h1 (by simp)
                    · next hnda =>
                      exfalso
                      rcases hcase with hrd | ⟨p2, hleg2⟩
                      · rw [hrd] at hleg
                        rw [hleg] at hnda
                        simp at hnda
                      · obtain ⟨pad, qad, hpad, _⟩ :=
                          Htrans cur r.node p1 w1 p2 dq hleg hleg2
                        rw [hpad] at hnda
                        simp at hnda
                    · next pw w hw =>
                      injection h1 with h1
                      rcases hcase with hrd | ⟨p2, hleg2⟩
                      · rw [hrd] at hleg
                        rw [hleg] at hw
                        injection hw with hw
                        injection hw with hw
                        injection hw with hp hww
                        rw [← h1, ← hteq, WithTop.coe_le_coe]
                        linarith [hww.symm.le, hww.le]
                      · obtain ⟨pad, qad, hpad, hqad⟩ :=
                          Htrans cur r.node p1 w1 p2 dq hleg hleg2
                        rw [hpad] at hw
                        injection hw with hw
                        injection hw with hw
                        injection hw with hp hww
                        rw [← h1, ← hteq, WithTop.coe_le_coe]
                        linarith
                · -- reset with a leg home first
                  subst ht1
                  rw [if_pos (by simp [hne])] at h1
                  split at h1
                  · exact absurd h1 (by simp)
                  · next hnda =>
                    rw [hleg0] at hnda
                    simp at hnda
                  · next pw w hw =>
                    rw [hleg0] at hw
                    injection hw with hw
                    injection hw with hw
                    injection hw with hp hww
                    injection h1 with h1
                    rw [← h1, ← hteq, WithTop.coe_le_coe]
                    linarith
                · -- already at the depot when the reset triggers
                  subst ht1
                  simp only [hdep, ne_eq, not_true_eq_false, Bool.and_false,
                    Bool.false_eq_true, if_false] at h1
                  injection h1 with h1
                  rw [← h1, ← hteq, WithTop.coe_le_coe]
                  linarith
              -- dispatch on the final depot-return leg of the appended route
              split at h2b
              · next hne2 =>
                split at h2b
                · exact absurd h2b (by simp)
                · injection h2b with h2b
                  rw [← h2b]
                  exact le_top
                · next p2 w2 hleg2 =>
                  injection h2b with h2b
                  rw [← h2b]
                  exact hfin w2 (Hnn _ _ _ _ hleg2) (Or.inr ⟨p2, hleg2⟩)
              · next hne2 =>
                injection h2b with h2b
                rw [← h2b]
                have hrd : r.node = depot := by
                  by_contra hcon
                  exact hne2 (by simp [hcon])
                have := hfin 0 (le_refl 0) (Or.inl hrd)
                simpa using this

/-- C3 (amended): appending a stop never decreases the route cost
*provided* the travel-time oracle behaves like shortest-path distances.
For `_route_cost`: A* leg costs must be nonnegative and
triangle-transitive towards the depot. For the matrix-based `route_time`:
the matrix entries must be nonnegative and satisfy the triangle inequality
towards the depot, and the appended request's demand must be positive
(since `INF` is a finite sentinel). Without these hypotheses the claim is
false — the misled A* of `gCE` and the symmetrised matrix of `gDLY` both
let an appended stop strictly lower the cost (see the counterexample). -/
theorem c3_amended :
    (∀ (g : CityGraph) (h : NodeId → NodeId → ℚ) (fuel : Nat) (v : Vehicle)
        (depot : NodeId) (stops : List DeliveryRequest) (r : DeliveryRequest)
        (c c' : WithTop ℚ),
      (∀ (a b : NodeId) (p : List NodeId) (q : ℚ),
        astar_shortest_path g h a b fuel = some (some (p, q)) → 0 ≤ q) →
      (∀ (a b : NodeId) (pab : List NodeId) (qab : ℚ)
          (pbd : List NodeId) (qbd : ℚ),
        astar_shortest_path g h a b fuel = some (some (pab, qab)) →
        astar_shortest_path g h b depot fuel = some (some (pbd, qbd)) →
        ∃ pad qad, astar_shortest_path g h a depot fuel
            = some (some (pad, qad)) ∧ qad ≤ qab + qbd) →
      route_cost g h v stops depot true fuel = some c →
      route_cost g h v (stops ++ [r]) depot true fuel = some c' →
      c ≤ c') ∧
    (∀ (depot : NodeId) (stops : List DeliveryRequest) (r : DeliveryRequest)
        (dist : DistMatrix) (cap : ℤ) (c c' : ℚ),
      (∀ k x, dlookup dist k = some x → 0 ≤ x) →
      (∀ (a b : NodeId) (x y z : ℚ), dlookup dist (a, depot) = some x →
        dlookup dist (a, b) = some y → dlookup dist (b, depot) = some z →
        x ≤ y + z) →
      0 < r.demand →
      route_time depot stops dist cap = some c →
      route_time depot (stops ++ [r]) dist cap = some c' →
      c ≤ c') :=
  ⟨fun g h fuel v depot stops r c c' Hnn Htrans h1 h2 =>
    route_cost_append_mono g h fuel v depot stops r c c' Hnn Htrans h1 h2,
   fun depot stops r dist cap c c' Hnn Htri Hd h1 h2 =>
    route_time_append_mono depot stops r dist cap c c' Hnn Htri Hd h1 h2⟩

theorem gD1_neighbors (a : NodeId) : gD1.neighbors a = [] := by
  unfold CityGraph.neighbors gD1
  by_cases hd : "D" = a
  · simp [dlookup, hd]
  · simp [dlookup, hd]

theorem astar_gD1_ne (a b : NodeId) (hne : a ≠ b) :
    astar_shortest_path gD1 h0 a b 2 = some none := by
  unfold astar_shortest_path
  rw [if_neg hne]
  simp [astarLoop, popMin, relaxEdges, gD1_neighbors, hne]

theorem astar_gD1_char (a b : NodeId) (p : List NodeId) (q : ℚ)
    (hrun : astar_shortest_path gD1 h0 a b 2 = some (some (p, q))) :
    a = b ∧ p = [a] ∧ q = 0 := by
  by_cases hab : a = b
  · subst hab
    unfold astar_shortest_path at hrun
    rw [if_pos rfl] at hrun
    simp only [Option.some.injEq, Prod.mk.injEq] at hrun
    exact ⟨rfl, hrun.1.symm, hrun.2.symm⟩
  · rw [astar_gD1_ne a b hab] at hrun
    exact absurd hrun (by simp)

theorem dist0_lookup (k : NodeId × NodeId) (x : ℚ)
    (hx : dlookup [(("D", "D"), (0 : ℚ))] k = some x) : x = 0 := by
  unfold dlookup at hx
  split at hx
  · injection hx with hx; exact hx.symm
  · exact Option.noConfusion hx

/-- C3 witness: on the one-node graph (and its one-entry distance matrix)
the oracle hypotheses hold and appending the only request keeps the route
cost at 0 for both cost models. -/
theorem c3_witness :
    route_cost gD1 h0 vD [] "D" true 2 = some ((0 : ℚ) : WithTop ℚ) ∧
      route_cost gD1 h0 vD [reqD] "D" true 2 = some ((0 : ℚ) : WithTop ℚ) ∧
      ((0 : ℚ) : WithTop ℚ) ≤ ((0 : ℚ) : WithTop ℚ) ∧
      route_time "D" [] [(("D", "D"), 0)] 3 = some 0 ∧
      route_time "D" [reqD] [(("D", "D"), 0)] 3 = some 0 ∧
      (0 : ℚ) ≤ 0 := by
  have hA1 : route_cost gD1 h0 vD [] "D" true 2 = some ((0 : ℚ) : WithTop ℚ) := by
    with_unfolding_all decide
  have hA2 : route_cost gD1 h0 vD [reqD] "D" true 2 = some ((0 : ℚ) : WithTop ℚ) := by
    with_unfolding_all decide
  have hB1 : route_time "D" [] [(("D", "D"), 0)] 3 = some 0 := by
    with_unfolding_all decide
  have hB2 : route_time "D" [reqD] [(("D", "D"), 0)] 3 = some 0 := by
    with_unfolding_all decide
  have hnnA : ∀ (a b : NodeId) (p : List NodeId) (q : ℚ),
      astar_shortest_path gD1 h0 a b 2 = some (some (p, q)) → 0 ≤ q := by
    intro a b p q hr
    rw [(astar_gD1_char a b p q hr).2.2]
  have htransA : ∀ (a b : NodeId) (pab : List NodeId) (qab : ℚ)
      (pbd : List NodeId) (qbd : ℚ),
      astar_shortest_path gD1 h0 a b 2 = some (some (pab, qab)) →
      astar_shortest_path gD1 h0 b "D" 2 = some (some (pbd, qbd)) →
      ∃ pad qad, astar_shortest_path gD1 h0 a "D" 2
          = some (some (pad, qad)) ∧ qad ≤ qab + qbd := by
    intro a b pab qab pbd qbd hr1 hr2
    obtain ⟨hab, _, hq1⟩ := astar_gD1_char a b pab qab hr1
    obtain ⟨hbd, _, hq2⟩ := astar_gD1_char b "D" pbd qbd hr2
    subst hab
    subst hbd
    refine ⟨pab, qab, hr1, by rw [hq1, hq2]; norm_num⟩
  have hnnB : ∀ (k : NodeId × NodeId) (x : ℚ),
      dlookup [(("D", "D"), (0 : ℚ))] k = some x → 0 ≤ x := by
    intro k x hx
    rw [dist0_lookup k x hx]
  have htriB : ∀ (a b : NodeId) (x y z : ℚ),
      dlookup [(("D", "D"), (0 : ℚ))] (a, "D") = some x →
      dlookup [(("D", "D"), (0 : ℚ))] (a, b) = some y →
      dlookup [(("D", "D"), (0 : ℚ))] (b, "D") = some z → x ≤ y + z := by
    intro a b x y z hx hy hz
    rw [dist0_lookup _ _ hx, dist0_lookup _ _ hy, dist0_lookup _ _ hz]
    norm_num
  exact ⟨hA1, hA2,
    c3_amended.1 gD1 h0 2 vD "D" [] reqD 0 0 hnnA htransA hA1 hA2,
    hB1, hB2,
    c3_amended.2 "D" [] reqD [(("D", "D"), 0)] 3 0 0 hnnB htriB (by decide) hB1 hB2⟩

/-! ## Theorems: greedy planner (claims C2, C5, C7) -/

theorem greedySelectInner_choice (g : CityGraph) (h : NodeId → NodeId → ℚ)
    (depot : NodeId) (fuel : Nat) (routes : List (String × VehicleRoute))
    (req : DeliveryRequest) :
    ∀ (vs : List Vehicle) (b : Option (String × DeliveryRequest × WithTop ℚ))
      (ch : String × DeliveryRequest × WithTop ℚ),
      greedySelectInner g h depot fuel routes req vs b = some (some ch) →
      b = some ch ∨ ch.2.1 = req := by
  intro vs
  induction vs with
  | nil =>
    intro b ch hrun
    simp only [greedySelectInner, Option.some.injEq] at hrun
    exact Or.inl hrun
  | cons v vs ih =>
    intro b ch hrun
    simp only [greedySelectInner] at hrun
    split at hrun
    · exact ih b ch hrun
    · split at hrun
      · exact absurd hrun (by simp)
      · split at hrun
        · exact absurd hrun (by simp)
        · split at hrun
          · rcases ih _ ch hrun with hb | hreq
            · injection hb with hb
              exact Or.inr (by rw [← hb])
            · exact Or.inr hreq
          · next b0 =>
            split at hrun
            · rcases ih _ ch hrun with hb | hreq
              · injection hb with hb
                exact Or.inr (by rw [← hb])
              · exact Or.inr hreq
            · exact ih (some b0) ch hrun

theorem greedySelect_mem (g : CityGraph) (h : NodeId → NodeId → ℚ)
    (depot : NodeId) (fuel : Nat) (routes : List (String × VehicleRoute))
    (vehicles : List Vehicle) :
    ∀ (rem : List DeliveryRequest)
      (b : Option (String × DeliveryRequest × WithTop ℚ))
      (ch : String × DeliveryRequest × WithTop ℚ),
      greedySelect g h depot fuel routes vehicles rem b = some (some ch) →
      b = some ch ∨ ch.2.1 ∈ rem := by
  intro rem
  induction rem with
  | nil =>
    intro b ch hrun
    simp only [greedySelect, Option.some.injEq] at hrun
    exact Or.inl hrun
  | cons r rem ih =>
    intro b ch hrun
    simp only [greedySelect] at hrun
    split at hrun
    · exact absurd hrun (by simp)
    · next b1 hinner =>
      rcases ih b1 ch hrun with hb | hmem
      · rw [hb] at hinner
        rcases greedySelectInner_choice g h depot fuel routes r vehicles b ch hinner with
          hb0 | hreq
        · exact Or.inl hb0
        · exact Or.inr (by rw [hreq]; exact List.mem_cons_self _ _)
      · exact Or.inr (List.mem_cons_of_mem _ hmem)

theorem greedyLoop_keys (g : CityGraph) (h : NodeId → NodeId → ℚ)
    (depot : NodeId) (vehicles : List Vehicle) (fuel : Nat) :
    ∀ (n : Nat) (routes : List (String × VehicleRoute))
      (remaining : List DeliveryRequest) (routes' : List (String × VehicleRoute)),
      greedyLoop g h depot vehicles fuel n routes remaining = some (.ok routes') →
      dKeys routes' = dKeys routes := by
  intro n
  induction n with
  | zero =>
    intro routes remaining routes' hrun
    match remaining with
    | [] =>
      simp only [greedyLoop, Option.some.injEq, Except.ok.injEq] at hrun
      rw [hrun]
    | _ :: _ => exact absurd hrun (by simp [greedyLoop])
  | succ n ih =>
    intro routes remaining routes' hrun
    match remaining with
    | [] =>
      simp only [greedyLoop, Option.some.injEq, Except.ok.injEq] at hrun
      rw [hrun]
    | r :: rem =>
      simp only [greedyLoop] at hrun
      split at hrun
      · exact absurd hrun (by simp)
      · exact absurd hrun (by simp)
      · next vid chosen c hsel =>
        split at hrun
        · exact absurd hrun (by simp)
        · next route hroute =>
          rw [ih _ _ _ hrun]
          exact dKeys_dinsert_present routes vid _ route hroute

theorem greedyLoop_perm (g : CityGraph) (h : NodeId → NodeId → ℚ)
    (depot : NodeId) (vehicles : List Vehicle) (fuel : Nat) :
    ∀ (n : Nat) (routes : List (String × VehicleRoute))
      (remaining : List DeliveryRequest) (routes' : List (String × VehicleRoute)),
      greedyLoop g h depot vehicles fuel n routes remaining = some (.ok routes') →
      routesStops routes' = routesStops routes + (remaining : Multiset DeliveryRequest) := by
  intro n
  induction n with
  | zero =>
    intro routes remaining routes' hrun
    match remaining with
    | [] =>
      simp only [greedyLoop, Option.some.injEq, Except.ok.injEq] at hrun
      rw [hrun]
      simp
    | _ :: _ => exact absurd hrun (by simp [greedyLoop])
  | succ n ih =>
    intro routes remaining routes' hrun
    match remaining with
    | [] =>
      simp only [greedyLoop, Option.some.injEq, Except.ok.injEq] at hrun
      rw [hrun]
      simp
    | r :: rem =>
      simp only [greedyLoop] at hrun
      split at hrun
      · exact absurd hrun (by simp)
      · exact absurd hrun (by simp)
      · next vid chosen c hsel =>
        split at hrun
        · exact absurd hrun (by simp)
        · next route hroute =>
          have hmem : chosen ∈ r :: rem := by
            rcases greedySelect_mem g h depot fuel routes vehicles (r :: rem) none
              (vid, chosen, c) hsel with hb | hm
            · exact absurd hb (by simp)
            · exact hm
          have hins := msum_dinsert_present
            (fun vr : VehicleRoute => (vr.stops : Multiset DeliveryRequest))
            routes vid { route with stops := route.stops ++ [chosen] } route hroute
          have hperm : ((r :: rem : List DeliveryRequest) : Multiset DeliveryRequest)
              = chosen ::ₘ ((r :: rem).erase chosen : List DeliveryRequest) := by
            have := List.perm_cons_erase hmem
            exact Multiset.coe_eq_coe.mpr this
          have hI := ih _ _ _ hrun
          have hcancel :
              routesStops routes' + (route.stops : Multiset DeliveryRequest)
                = (routesStops routes
                    + ((r :: rem : List DeliveryRequest) : Multiset DeliveryRequest))
                  + (route.stops : Multiset DeliveryRequest) := by
            rw [hI, hperm]
            have hins' : routesStops (dinsert routes vid
                  { route with stops := route.stops ++ [chosen] })
                + (route.stops : Multiset DeliveryRequest)
                = routesStops routes
                  + ((route.stops ++ [chosen] : List DeliveryRequest)
                      : Multiset DeliveryRequest) := hins
            calc routesStops (dinsert routes vid
                  { route with stops := route.stops ++ [chosen] })
                + (((r :: rem).erase chosen : List DeliveryRequest)
                    : Multiset DeliveryRequest)
                + (route.stops : Multiset DeliveryRequest)
                = routesStops (dinsert routes vid
                    { route with stops := route.stops ++ [chosen] })
                  + (route.stops : Multiset DeliveryRequest)
                  + (((r :: rem).erase chosen : List DeliveryRequest)
                      : Multiset DeliveryRequest) := by abel
              _ = routesStops routes
                  + ((route.stops ++ [chosen] : List DeliveryRequest)
                      : Multiset DeliveryRequest)
                  + (((r :: rem).erase chosen : List DeliveryRequest)
                      : Multiset DeliveryRequest) := by rw [hins']
              _ = routesStops routes
                  + (chosen ::ₘ (((r :: rem).erase chosen : List DeliveryRequest)
                      : Multiset DeliveryRequest))
                  + (route.stops : Multiset DeliveryRequest) := by
                    have hsplit : ((route.stops ++ [chosen] : List DeliveryRequest)
                          : Multiset DeliveryRequest)
                        = (route.stops : Multiset DeliveryRequest) + {chosen} := rfl
                    rw [hsplit]
                    simp only [← Multiset.singleton_add]
                    abel
          exact add_right_cancel hcancel

theorem greedyLoop_error_infeasible (g : CityGraph) (h : NodeId → NodeId → ℚ)
    (depot : NodeId) (vehicles : List Vehicle) (fuel : Nat) :
    ∀ (n : Nat) (routes : List (String × VehicleRoute))
      (remaining : List DeliveryRequest) (e : GreedyError),
      greedyLoop g h depot vehicles fuel n routes remaining = some (.error e) →
      e = .infeasible := by
  intro n
  induction n with
  | zero =>
    intro routes remaining e hrun
    match remaining with
    | [] => exact absurd hrun (by simp [greedyLoop])
    | _ :: _ => exact absurd hrun (by simp [greedyLoop])
  | succ n ih =>
    intro routes remaining e hrun
    match remaining with
    | [] => exact absurd hrun (by simp [greedyLoop])
    | r :: rem =>
      simp only [greedyLoop] at hrun
      split at hrun
      · exact absurd hrun (by simp)
      · injection hrun with hrun
        injection hrun with hrun
        exact hrun.symm
      · split at hrun
        · exact absurd hrun (by simp)
        · exact ih _ _ _ hrun

theorem findUnplaceable_isSome_iff (requests : List DeliveryRequest)
    (vehicles : List Vehicle) :
    (findUnplaceable requests vehicles).isSome = true ↔
      ∃ req ∈ requests, ∀ v ∈ vehicles, v.capacity < req.demand := by
  simp [findUnplaceable, List.find?_isSome, List.all_eq_true]

/-- C5: `build_plan` raises the "no vehicle can carry it" error exactly when
some request's demand exceeds every vehicle's capacity; the check depends
only on the requests and the vehicle capacities, so under that condition
the outcome is independent of the graph, the heuristic and the fuel. -/
theorem c5_unplaceable_iff (g : CityGraph) (h : NodeId → NodeId → ℚ)
    (depot : NodeId) (vehicles : List Vehicle) (requests : List DeliveryRequest)
    (fuel : Nat) :
    ((∃ req ∈ requests, ∀ v ∈ vehicles, v.capacity < req.demand) ↔
      (∃ e, greedy_build_plan g h depot vehicles requests fuel = some (.error e) ∧
        e.isUnplaceable = true)) ∧
    ((∃ req ∈ requests, ∀ v ∈ vehicles, v.capacity < req.demand) →
      ∀ (g' : CityGraph) (h' : NodeId → NodeId → ℚ) (fuel' : Nat),
        greedy_build_plan g h depot vehicles requests fuel
          = greedy_build_plan g' h' depot vehicles requests fuel') := by
  have hsome : (∃ req ∈ requests, ∀ v ∈ vehicles, v.capacity < req.demand) →
      ∃ req, findUnplaceable requests vehicles = some req := by
    intro hcond
    rcases Option.isSome_iff_exists.mp
      ((findUnplaceable_isSome_iff requests vehicles).mpr hcond) with ⟨req, hreq⟩
    exact ⟨req, hreq⟩
  constructor
  · constructor
    · intro hcond
      rcases hsome hcond with ⟨req, hreq⟩
      refine ⟨.unplaceable req.id req.demand, ?_, rfl⟩
      simp [greedy_build_plan, hreq]
    · rintro ⟨e, hrun, he⟩
      rcases hfind : findUnplaceable requests vehicles with _ | req
      · exfalso
        simp only [greedy_build_plan, hfind] at hrun
        split at hrun
        · exact absurd hrun (by simp)
        · next e1 heq =>
          injection hrun with hrun
          injection hrun with hrun
          rw [← hrun] at he
          rw [greedyLoop_error_infeasible g h depot vehicles fuel _ _ _ _ heq] at he
          exact absurd he (by simp [GreedyError.isUnplaceable])
        · split at hrun
          · exact absurd hrun (by simp)
          · injection hrun with hrun
            exact Except.noConfusion hrun
      · have hmem := List.mem_of_find?_eq_some hfind
        have hall := List.find?_some hfind
        refine ⟨req, hmem, ?_⟩
        intro v hv
        have := List.all_eq_true.mp hall v hv
        simpa using this
  · intro hcond g' h' fuel'
    rcases hsome hcond with ⟨req, hreq⟩
    simp [greedy_build_plan, hreq]

theorem c5_witness :
    ∃ e, greedy_build_plan gD1 h0 "D" [⟨"v", 2, "D"⟩, ⟨"w", 3, "D"⟩]
        [⟨"r", "D", 5⟩] 10 = some (.error e) ∧ e.isUnplaceable = true :=
  (c5_unplaceable_iff gD1 h0 "D" [⟨"v", 2, "D"⟩, ⟨"w", 3, "D"⟩]
      [⟨"r", "D", 5⟩] 10).1.mp
    ⟨⟨"r", "D", 5⟩, by with_unfolding_all decide, by
      intro v hv
      fin_cases hv <;> with_unfolding_all decide⟩

/-! ## Theorems: permutation lemmas for shuffling and index removal -/

theorem cons_set_perm {α : Type} :
    ∀ (l : List α) (k : Nat) (b c : α), l.get? k = some b →
      (b :: l.set k c).Perm (c :: l) := by
  intro l
  induction l with
  | nil => intro k b c hb; simp at hb
  | cons y ys ih =>
    intro k b c hb
    match k with
    | 0 =>
      simp only [List.get?] at hb
      injection hb with hb
      subst hb
      simp only [List.set]
      exact List.Perm.swap c _ ys
    | m + 1 =>
      simp only [List.get?] at hb
      simp only [List.set]
      exact ((List.Perm.swap y b _).trans
        (List.Perm.cons y (ih m b c hb))).trans (List.Perm.swap c y ys)

theorem swapIdx_perm {α : Type} (l : List α) (i j : Nat) :
    (swapIdx l i j).Perm l := by
  unfold swapIdx
  split
  · next a b ha hb =>
    by_cases hij : i = j
    · subst hij
      rw [ha] at hb
      injection hb with hb
      subst hb
      rw [List.set_set]
      exact (List.perm_cons a).mp (cons_set_perm l _ a a ha)
    · have hb' : (l.set i b).get? j = some b := by
        rw [List.get?_set_ne _ _ hij]
        exact hb
      have h1 := cons_set_perm (l.set i b) j b a hb'
      have h2 := cons_set_perm l i a b ha
      exact (List.perm_cons b).mp (h1.trans h2)
  · exact List.Perm.refl l

theorem shuffleGo_perm {α : Type} :
    ∀ (n : Nat) (l : List α) (r : PyRNG), ((shuffleGo l r n).1).Perm l := by
  intro n
  induction n with
  | zero => intro l r; exact List.Perm.refl l
  | succ i ih =>
    intro l r
    simp only [shuffleGo]
    exact (ih _ _).trans (swapIdx_perm l (i + 1) _)

theorem shuffle_perm {α : Type} (r : PyRNG) (l : List α) :
    ((r.shuffle l).1).Perm l := by
  unfold PyRNG.shuffle
  split
  · exact List.Perm.refl l
  · exact shuffleGo_perm _ l r

theorem get_eraseIdx_perm {α : Type} :
    ∀ (l : List α) (i : Nat) (a : α), l.get? i = some a →
      (a :: l.eraseIdx i).Perm l := by
  intro l
  induction l with
  | nil => intro i a ha; simp at ha
  | cons y ys ih =>
    intro i a ha
    match i with
    | 0 =>
      simp only [List.get?] at ha
      injection ha with ha
      subst ha
      exact List.Perm.refl _
    | m + 1 =>
      simp only [List.get?] at ha
      simp only [List.eraseIdx]
      exact (List.Perm.swap y a _).trans (List.Perm.cons y (ih m a ha))

/-! ## Theorems: dictionary sums over equal key sets -/

theorem mem_dinsert {K V : Type} [DecidableEq K] :
    ∀ (d : List (K × V)) (k : K) (v : V) (kv : K × V),
      kv ∈ dinsert d k v → kv ∈ d ∨ kv = (k, v) := by
  intro d
  induction d with
  | nil =>
    intro k v kv hm
    simp only [dinsert, List.mem_singleton] at hm
    exact Or.inr hm
  | cons kv1 rest ih =>
    intro k v kv hm
    obtain ⟨k1, v1⟩ := kv1
    by_cases hk : k1 = k
    · subst hk
      simp only [dinsert, if_pos rfl] at hm
      rcases List.mem_cons.mp hm with hm1 | hm1
      · exact Or.inr hm1
      · exact Or.inl (List.mem_cons_of_mem _ hm1)
    · simp only [dinsert, if_neg hk] at hm
      rcases List.mem_cons.mp hm with hm1 | hm1
      · exact Or.inl (hm1 ▸ List.mem_cons_self _ _)
      · rcases ih k v kv hm1 with hm2 | hm2
        · exact Or.inl (List.mem_cons_of_mem _ hm2)
        · exact Or.inr hm2

theorem mem_dKeys_iff {K V : Type} [DecidableEq K] :
    ∀ (d : List (K × V)) (k : K),
      k ∈ dKeys d ↔ (dlookup d k).isSome = true := by
  intro d
  induction d with
  | nil => intro k; simp [dKeys, dlookup]
  | cons kv rest ih =>
    intro k
    obtain ⟨k1, v1⟩ := kv
    by_cases hk : k1 = k
    · subst hk
      simp [dKeys, dlookup]
    · rw [show dKeys ((k1, v1) :: rest) = k1 :: dKeys rest from rfl, List.mem_cons,
        show dlookup ((k1, v1) :: rest) k
          = if k1 = k then some v1 else dlookup rest k from rfl,
        if_neg hk, ← ih k]
      constructor
      · rintro (hm | hm)
        · exact absurd hm.symm hk
        · exact hm
      · exact Or.inr

theorem dKeys_dErase {K V : Type} [DecidableEq K] :
    ∀ (d : List (K × V)) (k : K), dKeys (dErase d k) = (dKeys d).erase k := by
  intro d
  induction d with
  | nil => intro k; simp [dErase, dKeys]
  | cons kv rest ih =>
    intro k
    obtain ⟨k1, v1⟩ := kv
    by_cases hk : k1 = k
    · subst hk
      simp [dErase, dKeys, List.erase_cons_head]
    · rw [show dErase ((k1, v1) :: rest) k
          = if k1 = k then rest else (k1, v1) :: dErase rest k from rfl,
        if_neg hk,
        show dKeys ((k1, v1) :: dErase rest k) = k1 :: dKeys (dErase rest k) from rfl,
        show dKeys ((k1, v1) :: rest) = k1 :: dKeys rest from rfl,
        List.erase_cons_tail (by simp [hk]), ih k]

theorem dlookup_dErase_ne {K V : Type} [DecidableEq K] :
    ∀ (d : List (K × V)) (k k' : K), k' ≠ k →
      dlookup (dErase d k) k' = dlookup d k' := by
  intro d
  induction d with
  | nil => intro k k' _; simp [dErase]
  | cons kv rest ih =>
    intro k k' hne
    obtain ⟨k1, v1⟩ := kv
    by_cases hk : k1 = k
    · subst hk
      have hred : dErase ((k1, v1) :: rest) k1 = rest := by simp [dErase]
      rw [hred,
        show dlookup ((k1, v1) :: rest) k'
          = if k1 = k' then some v1 else dlookup rest k' from rfl,
        if_neg (fun hh : k1 = k' => hne hh.symm)]
    · rw [show dErase ((k1, v1) :: rest) k
          = if k1 = k then rest else (k1, v1) :: dErase rest k from rfl,
        if_neg hk,
        show dlookup ((k1, v1) :: dErase rest k) k'
          = if k1 = k' then some v1 else dlookup (dErase rest k) k' from rfl,
        show dlookup ((k1, v1) :: rest) k'
          = if k1 = k' then some v1 else dlookup rest k' from rfl,
        ih k k' hne]

theorem msum_dErase {K V α : Type} [DecidableEq K] (f : V → Multiset α) :
    ∀ (d : List (K × V)) (k : K) (w : V), dlookup d k = some w →
      (d.map (fun kv => f kv.2)).sum
        = ((dErase d k).map (fun kv => f kv.2)).sum + f w := by
  intro d
  induction d with
  | nil => intro k w hw; simp [dlookup] at hw
  | cons kv rest ih =>
    intro k w hw
    obtain ⟨k1, v1⟩ := kv
    by_cases hk : k1 = k
    · subst hk
      rw [show dlookup ((k1, v1) :: rest) k1
          = if k1 = k1 then some v1 else dlookup rest k1 from rfl,
        if_pos rfl] at hw
      injection hw with hw
      subst hw
      have hred : dErase ((k1, v1) :: rest) k1 = rest := by simp [dErase]
      rw [hred, List.map_cons, List.sum_cons]
      exact add_comm _ _
    · rw [show dlookup ((k1, v1) :: rest) k
          = if k1 = k then some v1 else dlookup rest k from rfl, if_neg hk] at hw
      rw [show dErase ((k1, v1) :: rest) k
          = if k1 = k then rest else (k1, v1) :: dErase rest k from rfl,
        if_neg hk, List.map_cons, List.map_cons, List.sum_cons, List.sum_cons,
        ih k w hw, add_assoc]

theorem msum_congr_keyset {K V W α : Type} [DecidableEq K]
    (f : V → Multiset α) (g : W → Multiset α) :
    ∀ (d1 : List (K × V)) (d2 : List (K × W)),
      (dKeys d1).Nodup → (dKeys d2).Nodup →
      (∀ k, k ∈ dKeys d1 ↔ k ∈ dKeys d2) →
      (∀ k v w, dlookup d1 k = some v → dlookup d2 k = some w → f v = g w) →
      (d1.map (fun kv => f kv.2)).sum = (d2.map (fun kv => g kv.2)).sum := by
  intro d1
  induction d1 with
  | nil =>
    intro d2 _ _ hks _
    match d2 with
    | [] => rfl
    | (k2, w2) :: rest =>
      exact absurd ((hks k2).mpr (List.mem_cons_self _ _)) (by simp [dKeys])
  | cons kv rest ih =>
    intro d2 hnd1 hnd2 hks hv
    obtain ⟨k, v⟩ := kv
    rw [show dKeys ((k, v) :: rest) = k :: dKeys rest from rfl,
      List.nodup_cons] at hnd1
    obtain ⟨hknr, hnd1'⟩ := hnd1
    have hk2 : k ∈ dKeys d2 := (hks k).mp (by
      rw [show dKeys ((k, v) :: rest) = k :: dKeys rest from rfl]
      exact List.mem_cons_self _ _)
    rcases Option.isSome_iff_exists.mp ((mem_dKeys_iff d2 k).mp hk2) with ⟨w, hw⟩
    have hlk1 : dlookup ((k, v) :: rest) k = some v := by
      simp [dlookup]
    have hfg : f v = g w := hv k v w hlk1 hw
    have hnd2' : (dKeys (dErase d2 k)).Nodup := by
      rw [dKeys_dErase]
      exact hnd2.erase k
    have hks' : ∀ k', k' ∈ dKeys rest ↔ k' ∈ dKeys (dErase d2 k) := by
      intro k'
      rw [dKeys_dErase, hnd2.mem_erase_iff]
      constructor
      · intro hm
        have hne : k' ≠ k := fun hh => hknr (hh ▸ hm)
        refine ⟨hne, (hks k').mp ?_⟩
        rw [show dKeys ((k, v) :: rest) = k :: dKeys rest from rfl]
        exact List.mem_cons_of_mem _ hm
      · rintro ⟨hne, hm⟩
        have hm2 := (hks k').mpr hm
        rw [show dKeys ((k, v) :: rest) = k :: dKeys rest from rfl,
          List.mem_cons] at hm2
        rcases hm2 with hh | hh
        · exact absurd hh hne
        · exact hh
    have hv' : ∀ k' v' w', dlookup rest k' = some v' →
        dlookup (dErase d2 k) k' = some w' → f v' = g w' := by
      intro k' v' w' h1 h2
      have hmem : k' ∈ dKeys rest := (mem_dKeys_iff rest k').mpr (by simp [h1])
      have hne : k' ≠ k := fun hh => hknr (hh ▸ hmem)
      have h1' : dlookup ((k, v) :: rest) k' = some v' := by
        rw [show dlookup ((k, v) :: rest) k'
            = if k = k' then some v else dlookup rest k' from rfl,
          if_neg (fun hh : k = k' => hne hh.symm)]
        exact h1
      have h2' : dlookup d2 k' = some w' := by
        rw [← dlookup_dErase_ne d2 k k' hne]
        exact h2
      exact hv k' v' w' h1' h2'
    calc (((k, v) :: rest).map (fun kv => f kv.2)).sum
        = f v + (rest.map (fun kv => f kv.2)).sum := by simp
      _ = f v + ((dErase d2 k).map (fun kv => g kv.2)).sum := by
          rw [ih (dErase d2 k) hnd1' hnd2' hks' hv']
      _ = ((dErase d2 k).map (fun kv => g kv.2)).sum + g w := by
          rw [hfg, add_comm]
      _ = (d2.map (fun kv => g kv.2)).sum := (msum_dErase g d2 k w hw).symm

/-! ## Theorems: request conservation in the optimizer state -/

theorem foldl_dinsert_nodup {K V A : Type} [DecidableEq K]
    (key : A → K) (val : A → V) :
    ∀ (xs : List A) (d : List (K × V)), (dKeys d).Nodup →
      (dKeys (xs.foldl (fun d x => dinsert d (key x) (val x)) d)).Nodup := by
  intro xs
  induction xs with
  | nil => intro d hd; exact hd
  | cons x xs ih =>
    intro d hd
    simp only [List.foldl_cons]
    refine ih _ ?_
    rcases hl : dlookup d (key x) with _ | w
    · rw [dKeys_dinsert_absent d _ _ hl]
      have hnm : key x ∉ dKeys d := by
        rw [mem_dKeys_iff, hl]
        simp
      simp [List.nodup_append, hd, List.disjoint_singleton, hnm]
    · rw [dKeys_dinsert_present d _ _ w hl]
      exact hd

theorem foldl_dinsert_keys_subset {K V A : Type} [DecidableEq K]
    (key : A → K) (val : A → V) :
    ∀ (xs : List A) (d : List (K × V)) (k : K),
      k ∈ dKeys (xs.foldl (fun d x => dinsert d (key x) (val x)) d) →
      k ∈ dKeys d ∨ k ∈ xs.map key := by
  intro xs
  induction xs with
  | nil => intro d k hk; exact Or.inl hk
  | cons x xs ih =>
    intro d k hk
    simp only [List.foldl_cons] at hk
    rcases ih _ k hk with hk1 | hk1
    · rcases hl : dlookup d (key x) with _ | w
      · rw [dKeys_dinsert_absent d _ _ hl] at hk1
        rcases List.mem_append.mp hk1 with hk2 | hk2
        · exact Or.inl hk2
        · refine Or.inr ?_
          simp only [List.map_cons, List.mem_cons]
          exact Or.inl (List.mem_singleton.mp hk2)
      · rw [dKeys_dinsert_present d _ _ w hl] at hk1
        exact Or.inl hk1
    · refine Or.inr ?_
      simp only [List.map_cons, List.mem_cons]
      exact Or.inr hk1

theorem foldl_dinsert_values {K V A : Type} [DecidableEq K]
    (key : A → K) (val : A → V) (P : V → Prop) (hval : ∀ x, P (val x)) :
    ∀ (xs : List A) (d : List (K × V)), (∀ kv ∈ d, P kv.2) →
      ∀ kv ∈ xs.foldl (fun d x => dinsert d (key x) (val x)) d, P kv.2 := by
  intro xs
  induction xs with
  | nil => intro d hd kv hm; exact hd kv hm
  | cons x xs ih =>
    intro d hd kv hm
    simp only [List.foldl_cons] at hm
    refine ih _ ?_ kv hm
    intro kv1 hm1
    rcases mem_dinsert d (key x) (val x) kv1 hm1 with hm2 | hm2
    · exact hd kv1 hm2
    · rw [hm2]
      exact hval x

theorem stateStops_eq_zero :
    ∀ (d : MCState), (∀ kv ∈ d, kv.2 = []) → stateStops d = 0 := by
  intro d
  induction d with
  | nil => intro _; rfl
  | cons kv rest ih =>
    intro hd
    have h1 : kv.2 = [] := hd kv (List.mem_cons_self _ _)
    have h2 : stateStops rest = 0 := ih (fun kv1 hm => hd kv1 (List.mem_cons_of_mem _ hm))
    show ((kv.2 : Multiset DeliveryRequest)) + stateStops rest = 0
    rw [h1, h2]
    rfl

theorem routesStops_eq_zero :
    ∀ (d : List (String × VehicleRoute)), (∀ kv ∈ d, kv.2.stops = []) →
      routesStops d = 0 := by
  intro d
  induction d with
  | nil => intro _; rfl
  | cons kv rest ih =>
    intro hd
    have h1 : kv.2.stops = [] := hd kv (List.mem_cons_self _ _)
    have h2 : routesStops rest = 0 := ih (fun kv1 hm => hd kv1 (List.mem_cons_of_mem _ hm))
    show ((kv.2.stops : Multiset DeliveryRequest)) + routesStops rest = 0
    rw [h1, h2]
    rfl

theorem stateStops_dinsert_append (state : MCState) (k : String)
    (lst : List DeliveryRequest) (req : DeliveryRequest)
    (hw : dlookup state k = some lst) :
    stateStops (dinsert state k (lst ++ [req])) = stateStops state + {req} := by
  have hins : stateStops (dinsert state k (lst ++ [req]))
      + (lst : Multiset DeliveryRequest)
      = stateStops state + ((lst ++ [req] : List DeliveryRequest)
          : Multiset DeliveryRequest) :=
    msum_dinsert_present (fun l : List DeliveryRequest => (l : Multiset DeliveryRequest))
      state k (lst ++ [req]) lst hw
  rw [show ((lst ++ [req] : List DeliveryRequest) : Multiset DeliveryRequest)
      = (lst : Multiset DeliveryRequest) + {req} from rfl] at hins
  have h2 : stateStops (dinsert state k (lst ++ [req]))
      + (lst : Multiset DeliveryRequest)
      = (stateStops state + {req}) + (lst : Multiset DeliveryRequest) := by
    rw [hins]
    abel
  exact add_right_cancel h2

theorem stateStops_dinsert_popped (state : MCState) (k : String)
    (lst : List DeliveryRequest) (i : Nat) (req : DeliveryRequest)
    (hw : dlookup state k = some lst) (hr : lst.get? i = some req) :
    stateStops (dinsert state k (lst.eraseIdx i)) + {req} = stateStops state := by
  have hins : stateStops (dinsert state k (lst.eraseIdx i))
      + (lst : Multiset DeliveryRequest)
      = stateStops state + ((lst.eraseIdx i : List DeliveryRequest)
          : Multiset DeliveryRequest) :=
    msum_dinsert_present (fun l : List DeliveryRequest => (l : Multiset DeliveryRequest))
      state k (lst.eraseIdx i) lst hw
  have hperm : (lst : Multiset DeliveryRequest)
      = req ::ₘ ((lst.eraseIdx i : List DeliveryRequest) : Multiset DeliveryRequest) :=
    (Multiset.coe_eq_coe.mpr (get_eraseIdx_perm lst i req hr)).symm
  rw [hperm] at hins
  have h2 : stateStops (dinsert state k (lst.eraseIdx i)) + {req}
        + ((lst.eraseIdx i : List DeliveryRequest) : Multiset DeliveryRequest)
      = stateStops state
        + ((lst.eraseIdx i : List DeliveryRequest) : Multiset DeliveryRequest) := by
    rw [← hins]
    rw [show req ::ₘ ((lst.eraseIdx i : List DeliveryRequest) : Multiset DeliveryRequest)
        = {req} + ((lst.eraseIdx i : List DeliveryRequest) : Multiset DeliveryRequest)
      from (Multiset.singleton_add _ _).symm]
    abel
  exact add_right_cancel h2

theorem initDistribute_inv (vehicles : List Vehicle) :
    ∀ (reqs : List DeliveryRequest) (state : MCState) (rng : PyRNG)
      (state' : MCState) (rng' : PyRNG),
      initDistribute vehicles reqs state rng = some (state', rng') →
      dKeys state' = dKeys state ∧
        stateStops state' = stateStops state + (reqs : Multiset DeliveryRequest) := by
  intro reqs
  induction reqs with
  | nil =>
    intro state rng state' rng' hrun
    simp only [initDistribute, Option.some.injEq, Prod.mk.injEq] at hrun
    rw [hrun.1]
    simp
  | cons req reqs ih =>
    intro state rng state' rng' hrun
    simp only [initDistribute] at hrun
    split at hrun
    · exact absurd hrun (by simp)
    · next v rng1 hch =>
      split at hrun
      · exact absurd hrun (by simp)
      · next lst hl =>
        obtain ⟨hk, hs⟩ := ih _ _ _ _ hrun
        constructor
        · rw [hk]
          exact dKeys_dinsert_present state _ _ lst hl
        · rw [hs, stateStops_dinsert_append state _ lst req hl,
            show ((req :: reqs : List DeliveryRequest) : Multiset DeliveryRequest)
              = {req} + (reqs : Multiset DeliveryRequest)
            from (Multiset.singleton_add _ _).symm ▸ rfl]
          abel

theorem random_move_inv (state : MCState) (vehicles : List Vehicle) (rng : PyRNG)
    (state' : MCState) (rng' : PyRNG)
    (hrun : random_move state vehicles rng = some (state', rng')) :
    dKeys state' = dKeys state ∧ stateStops state' = stateStops state := by
  simp only [random_move] at hrun
  split at hrun
  · exact absurd hrun (by simp)
  · next from_vid rng1 hch =>
    split at hrun
    · exact absurd hrun (by simp)
    · next fromList hfl =>
      split at hrun
      · simp only [Option.some.injEq, Prod.mk.injEq] at hrun
        rw [hrun.1]
        exact ⟨rfl, rfl⟩
      · next hne =>
        split at hrun
        · exact absurd hrun (by simp)
        · next r_idx rng2 hrr =>
          split at hrun
          · exact absurd hrun (by simp)
          · next req hget =>
            have hl2 : dlookup (dinsert state from_vid (fromList.eraseIdx r_idx))
                from_vid = some (fromList.eraseIdx r_idx) :=
              dlookup_dinsert_self state from_vid _
            have hkeys2 : dKeys (dinsert state from_vid (fromList.eraseIdx r_idx))
                = dKeys state := dKeys_dinsert_present state _ _ fromList hfl
            have hstops2 := stateStops_dinsert_popped state from_vid fromList
              r_idx req hfl hget
            split at hrun
            · simp only [Option.some.injEq, Prod.mk.injEq] at hrun
              rw [← hrun.1]
              constructor
              · rw [dKeys_dinsert_present _ _ _ _ hl2, hkeys2]
              · rw [stateStops_dinsert_append _ _ _ req hl2, ← hstops2]
            · split at hrun
              · exact absurd hrun (by simp)
              · next to_vid rng3 hch2 =>
                split at hrun
                · exact absurd hrun (by simp)
                · next toList htl =>
                  simp only [Option.some.injEq, Prod.mk.injEq] at hrun
                  rw [← hrun.1]
                  constructor
                  · rw [dKeys_dinsert_present _ _ _ toList htl, hkeys2]
                  · rw [stateStops_dinsert_append _ _ toList req htl, ← hstops2]

theorem mcStep_state_inv (depot : NodeId) (vehicles : List Vehicle)
    (dist : DistMatrix) (st st1 : MCLoopState)
    (hrun : mcStep depot vehicles dist st = some st1) :
    (dKeys st1.current_state = dKeys st.current_state ∧
      stateStops st1.current_state = stateStops st.current_state) ∧
    ((dKeys st1.best_state = dKeys st.best_state ∧
        stateStops st1.best_state = stateStops st.best_state) ∨
      (dKeys st1.best_state = dKeys st.current_state ∧
        stateStops st1.best_state = stateStops st.current_state)) := by
  simp only [mcStep] at hrun
  split at hrun
  · exact absurd hrun (by simp)
  · next candidate rng1 hmv =>
    obtain ⟨hkc, hsc⟩ := random_move_inv _ _ _ _ _ hmv
    split at hrun
    · exact absurd hrun (by simp)
    · next cand_cost hev =>
      split at hrun
      · split at hrun
        · injection hrun with hrun
          rw [← hrun]
          exact ⟨⟨hkc, hsc⟩, Or.inr ⟨hkc, hsc⟩⟩
        · injection hrun with hrun
          rw [← hrun]
          exact ⟨⟨hkc, hsc⟩, Or.inl ⟨rfl, rfl⟩⟩
      · injection hrun with hrun
        rw [← hrun]
        exact ⟨⟨rfl, rfl⟩, Or.inl ⟨rfl, rfl⟩⟩

theorem mcLoop_state_inv (depot : NodeId) (vehicles : List Vehicle)
    (dist : DistMatrix) :
    ∀ (n : Nat) (st stf : MCLoopState) (ks : List String)
      (S : Multiset DeliveryRequest),
      dKeys st.current_state = ks → stateStops st.current_state = S →
      dKeys st.best_state = ks → stateStops st.best_state = S →
      mcLoop depot vehicles dist n st = some stf →
      dKeys stf.best_state = ks ∧ stateStops stf.best_state = S := by
  intro n
  induction n with
  | zero =>
    intro st stf ks S _ _ hk hs hrun
    simp only [mcLoop, Option.some.injEq] at hrun
    rw [← hrun]
    exact ⟨hk, hs⟩
  | succ n ih =>
    intro st stf ks S hkc hsc hkb hsb hrun
    simp only [mcLoop] at hrun
    split at hrun
    · exact absurd hrun (by simp)
    · next st1 hstep =>
      obtain ⟨⟨hkc1, hsc1⟩, hb1⟩ := mcStep_state_inv depot vehicles dist st st1 hstep
      rcases hb1 with ⟨hkb1, hsb1⟩ | ⟨hkb1, hsb1⟩
      · exact ih st1 stf ks S (hkc1.trans hkc) (hsc1.trans hsc)
          (hkb1.trans hkb) (hsb1.trans hsb) hrun
      · exact ih st1 stf ks S (hkc1.trans hkc) (hsc1.trans hsc)
          (hkb1.trans hkc) (hsb1.trans hsc) hrun

theorem nnLoop_perm (dist : DistMatrix) :
    ∀ (fuel : Nat) (cur : NodeId) (remaining route res : List DeliveryRequest),
      nnLoop dist fuel cur remaining route = some res →
      (res : Multiset DeliveryRequest)
        = (route : Multiset DeliveryRequest) + (remaining : Multiset DeliveryRequest) := by
  intro fuel
  induction fuel with
  | zero =>
    intro cur remaining route res hrun
    match remaining with
    | [] =>
      simp only [nnLoop, Option.some.injEq] at hrun
      rw [← hrun]
      simp
    | _ :: _ => exact absurd hrun (by simp [nnLoop])
  | succ fuel ih =>
    intro cur remaining route res hrun
    match remaining with
    | [] =>
      simp only [nnLoop, Option.some.injEq] at hrun
      rw [← hrun]
      simp
    | r :: rem =>
      simp only [nnLoop] at hrun
      split at hrun
      · exact absurd hrun (by simp)
      · next idx hsel =>
        split at hrun
        · exact absurd hrun (by simp)
        · next chosen hget =>
          rw [ih _ _ _ _ hrun]
          have hperm : ((r :: rem : List DeliveryRequest) : Multiset DeliveryRequest)
              = chosen ::ₘ (((r :: rem).eraseIdx idx : List DeliveryRequest)
                  : Multiset DeliveryRequest) :=
            (Multiset.coe_eq_coe.mpr (get_eraseIdx_perm (r :: rem) idx chosen hget)).symm
          rw [hperm,
            show ((route ++ [chosen] : List DeliveryRequest) : Multiset DeliveryRequest)
              = (route : Multiset DeliveryRequest) + {chosen} from rfl,
            ← Multiset.singleton_add]
          abel

theorem build_tsp_perm (depot : NodeId) (requests : List DeliveryRequest)
    (dist : DistMatrix) (ordered : List DeliveryRequest)
    (hrun : build_tsp_route_nearest_neighbor depot requests dist = some ordered) :
    (ordered : Multiset DeliveryRequest) = (requests : Multiset DeliveryRequest) := by
  simp only [build_tsp_route_nearest_neighbor] at hrun
  split at hrun
  · next hreq =>
    injection hrun with hrun
    rw [← hrun, hreq]
  · have := nnLoop_perm dist requests.length depot requests [] ordered hrun
    rw [this]
    simp

theorem mcFinalRoutes_corr (depot : NodeId) (dist : DistMatrix) (best : MCState) :
    ∀ (vs : List Vehicle) (routes routes' : List (String × VehicleRoute)),
      mcFinalRoutes depot dist best vs routes = some routes' →
      (∀ k vr, dlookup routes k = some vr →
        ∃ reqs, dlookup best k = some reqs ∧
          ((vr.stops : Multiset DeliveryRequest) = (reqs : Multiset DeliveryRequest))) →
      (∀ k, k ∈ dKeys routes → k ∈ dKeys best) →
      (dKeys routes).Nodup →
      (∀ k vr, dlookup routes' k = some vr →
        ∃ reqs, dlookup best k = some reqs ∧
          ((vr.stops : Multiset DeliveryRequest) = (reqs : Multiset DeliveryRequest))) ∧
      (∀ k, k ∈ dKeys routes' ↔ (k ∈ dKeys routes ∨ k ∈ vs.map Vehicle.id)) ∧
      (∀ k, k ∈ dKeys routes' → k ∈ dKeys best) ∧
      (dKeys routes').Nodup := by
  intro vs
  induction vs with
  | nil =>
    intro routes routes' hrun hcorr hkb hnd
    simp only [mcFinalRoutes, Option.some.injEq] at hrun
    subst hrun
    exact ⟨hcorr, fun k => by simp, hkb, hnd⟩
  | cons v vs ih =>
    intro routes routes' hrun hcorr hkb hnd
    simp only [mcFinalRoutes] at hrun
    split at hrun
    · exact absurd hrun (by simp)
    · next reqs hreqs =>
      split at hrun
      · exact absurd hrun (by simp)
      · next ordered hord =>
        have hperm := build_tsp_perm depot reqs dist ordered hord
        have hcorr2 : ∀ k vr, dlookup (dinsert routes v.id ⟨v.id, ordered⟩) k = some vr →
            ∃ reqs1, dlookup best k = some reqs1 ∧
              ((vr.stops : Multiset DeliveryRequest)
                = (reqs1 : Multiset DeliveryRequest)) := by
          intro k vr hl
          by_cases hk : k = v.id
          · subst hk
            rw [dlookup_dinsert_self] at hl
            injection hl with hl
            exact ⟨reqs, hreqs, by rw [← hl]; exact hperm⟩
          · rw [dlookup_dinsert_ne routes v.id k _ (fun hh => hk hh.symm)] at hl
            exact hcorr k vr hl
        have hvid_best : v.id ∈ dKeys best := by
          rw [mem_dKeys_iff, hreqs]
          rfl
        have hkb2 : ∀ k, k ∈ dKeys (dinsert routes v.id ⟨v.id, ordered⟩) →
            k ∈ dKeys best := by
          intro k hk
          rcases hl : dlookup routes v.id with _ | w
          · rw [dKeys_dinsert_absent routes _ _ hl] at hk
            rcases List.mem_append.mp hk with hk1 | hk1
            · exact hkb k hk1
            · rw [List.mem_singleton.mp hk1]
              exact hvid_best
          · rw [dKeys_dinsert_present routes _ _ w hl] at hk
            exact hkb k hk
        have hnd2 : (dKeys (dinsert routes v.id ⟨v.id, ordered⟩)).Nodup := by
          rcases hl : dlookup routes v.id with _ | w
          · rw [dKeys_dinsert_absent routes _ _ hl]
            have hnm : v.id ∉ dKeys routes := by
              rw [mem_dKeys_iff, hl]
              simp
            simp [List.nodup_append, hnd, List.disjoint_singleton, hnm]
          · rw [dKeys_dinsert_present routes _ _ w hl]
            exact hnd
        obtain ⟨c1, c2, c3, c4⟩ := ih _ _ hrun hcorr2 hkb2 hnd2
        refine ⟨c1, ?_, c3, c4⟩
        intro k
        rw [c2 k]
        constructor
        · rintro (hk | hk)
          · rcases hl : dlookup routes v.id with _ | w
            · rw [dKeys_dinsert_absent routes _ _ hl] at hk
              rcases List.mem_append.mp hk with hk1 | hk1
              · exact Or.inl hk1
              · refine Or.inr ?_
                simp only [List.map_cons, List.mem_cons]
                exact Or.inl (List.mem_singleton.mp hk1)
            · rw [dKeys_dinsert_present routes _ _ w hl] at hk
              exact Or.inl hk
          · refine Or.inr ?_
            simp only [List.map_cons, List.mem_cons]
            exact Or.inr hk
        · rintro (hk | hk)
          · refine Or.inl ?_
            rcases hl : dlookup routes v.id with _ | w
            · rw [dKeys_dinsert_absent routes _ _ hl]
              exact List.mem_append.mpr (Or.inl hk)
            · rw [dKeys_dinsert_present routes _ _ w hl]
              exact hk
          · simp only [List.map_cons, List.mem_cons] at hk
            rcases hk with hk | hk
            · refine Or.inl ?_
              subst hk
              rw [mem_dKeys_iff, dlookup_dinsert_self]
              rfl
            · exact Or.inr hk

/-- C2: request conservation. Every successful `GreedyVRPPlanner.build_plan`
and every successful `MonteCarloGroupingPlanner.build_plan` returns a plan
whose routes together hold exactly the requested deliveries, as a multiset:
no duplication, no omission. -/
theorem c2_requests_conserved :
    (∀ (g : CityGraph) (h : NodeId → NodeId → ℚ) (depot : NodeId)
      (vehicles : List Vehicle) (requests : List DeliveryRequest) (fuel : Nat)
      (pc : PlanCost),
      greedy_build_plan g h depot vehicles requests fuel = some (.ok pc) →
      routesStops pc.plan.routes = (requests : Multiset DeliveryRequest)) ∧
    (∀ (g : CityGraph) (h : NodeId → NodeId → ℚ) (depot : NodeId)
      (vehicles : List Vehicle) (requests : List DeliveryRequest) (rng : PyRNG)
      (iterations fuel : Nat) (res : GroupingResult) (rng' : PyRNG),
      mc_build_plan g h depot vehicles requests rng iterations fuel
        = some (res, rng') →
      routesStops res.plan.routes = (requests : Multiset DeliveryRequest)) := by
  constructor
  · intro g h depot vehicles requests fuel pc hrun
    simp only [greedy_build_plan] at hrun
    split at hrun
    · exact absurd hrun (by simp)
    · split at hrun
      · exact absurd hrun (by simp)
      · exact absurd hrun (by simp)
      · next routes hloop =>
        split at hrun
        · exact absurd hrun (by simp)
        · next total htot =>
          injection hrun with hrun
          injection hrun with hrun
          rw [← hrun]
          show routesStops routes = (requests : Multiset DeliveryRequest)
          rw [greedyLoop_perm g h depot vehicles fuel requests.length _ requests
            routes hloop]
          rw [routesStops_eq_zero _
            (foldl_dinsert_values Vehicle.id (fun v => (⟨v.id, []⟩ : VehicleRoute))
              (fun vr : VehicleRoute => vr.stops = []) (fun _ => rfl)
              vehicles [] (by simp))]
          rw [zero_add]
  · intro g h depot vehicles requests rng iterations fuel res rng' hrun
    simp only [mc_build_plan] at hrun
    split at hrun
    · next hreq =>
      simp only [Option.some.injEq, Prod.mk.injEq] at hrun
      rw [← hrun.1]
      show routesStops (vehicles.foldl (fun d v => dinsert d v.id ⟨v.id, []⟩) [])
        = (requests : Multiset DeliveryRequest)
      rw [routesStops_eq_zero _
        (foldl_dinsert_values Vehicle.id (fun v => (⟨v.id, []⟩ : VehicleRoute))
          (fun vr : VehicleRoute => vr.stops = []) (fun _ => rfl)
          vehicles [] (by simp)), hreq]
      rfl
    · split at hrun
      · exact absurd hrun (by simp)
      · next dist hdist =>
        split at hrun
        · exact absurd hrun (by simp)
        · next state rng1 hinit =>
          split at hrun
          · exact absurd hrun (by simp)
          · next cost0 heval =>
            split at hrun
            · exact absurd hrun (by simp)
            · next stf hloop =>
              split at hrun
              · exact absurd hrun (by simp)
              · next routes hfin =>
                simp only [Option.some.injEq, Prod.mk.injEq] at hrun
                rw [← hrun.1]
                show routesStops routes = (requests : Multiset DeliveryRequest)
                simp only [init_state_random] at hinit
                obtain ⟨hkeys_init, hstops_init⟩ :=
                  initDistribute_inv vehicles _ _ _ _ _ hinit
                have hst0 : stateStops
                    (vehicles.foldl (fun d v => dinsert d v.id []) []) = 0 :=
                  stateStops_eq_zero _
                    (foldl_dinsert_values Vehicle.id
                      (fun _ => ([] : List DeliveryRequest)) (fun l => l = [])
                      (fun _ => rfl) vehicles [] (by simp))
                have hshuffle : (((rng.shuffle requests).1 : List DeliveryRequest)
                      : Multiset DeliveryRequest)
                    = (requests : Multiset DeliveryRequest) :=
                  Multiset.coe_eq_coe.mpr (shuffle_perm rng requests)
                have hstops_state : stateStops state
                    = (requests : Multiset DeliveryRequest) := by
                  rw [hstops_init, hst0, hshuffle, zero_add]
                have hnd0 : (dKeys
                    (vehicles.foldl (fun d v => dinsert d v.id []) [])).Nodup :=
                  foldl_dinsert_nodup Vehicle.id
                    (fun _ => ([] : List DeliveryRequest)) vehicles []
                    (by simp [dKeys])
                obtain ⟨hkb, hsb⟩ := mcLoop_state_inv depot vehicles dist
                  iterations _ stf
                  (dKeys (vehicles.foldl (fun d v => dinsert d v.id []) []))
                  (requests : Multiset DeliveryRequest)
                  hkeys_init hstops_state hkeys_init hstops_state hloop
                obtain ⟨c1, c2k, c3, c4⟩ := mcFinalRoutes_corr depot dist
                  stf.best_state vehicles [] routes hfin
                  (by intro k vr hl; exact absurd hl (by simp [dlookup]))
                  (by intro k hk; exact absurd hk (by simp [dKeys]))
                  (by simp [dKeys])
                have hkiff : ∀ k, k ∈ dKeys routes ↔ k ∈ dKeys stf.best_state := by
                  intro k
                  constructor
                  · exact c3 k
                  · intro hk
                    rw [c2k k]
                    refine Or.inr ?_
                    have hk0 : k ∈ dKeys
                        (vehicles.foldl (fun d v => dinsert d v.id []) []) :=
                      hkb ▸ hk
                    rcases foldl_dinsert_keys_subset Vehicle.id
                        (fun _ => ([] : List DeliveryRequest)) vehicles [] k hk0 with
                      h1 | h1
                    · exact absurd h1 (by simp [dKeys])
                    · exact h1
                have hndb : (dKeys stf.best_state).Nodup := by
                  rw [hkb]
                  exact hnd0
                have hv : ∀ k v w, dlookup routes k = some v →
                    dlookup stf.best_state k = some w →
                    ((v.stops : List DeliveryRequest) : Multiset DeliveryRequest)
                      = ((w : List DeliveryRequest) : Multiset DeliveryRequest) := by
                  intro k v w h1 h2
                  rcases c1 k v h1 with ⟨reqs, hlw, heq⟩
                  rw [hlw] at h2
                  injection h2 with h2
                  rw [heq, h2]
                have hfinal := msum_congr_keyset
                  (fun vr : VehicleRoute => (vr.stops : Multiset DeliveryRequest))
                  (fun l : List DeliveryRequest => (l : Multiset DeliveryRequest))
                  routes stf.best_state c4 hndb hkiff hv
                show (routes.map (fun kv =>
                    (kv.2.stops : Multiset DeliveryRequest))).sum
                  = (requests : Multiset DeliveryRequest)
                rw [hfinal]
                show stateStops stf.best_state = _
                exact hsb

theorem c2_witness :
    routesStops [("v", (⟨"v", [reqD]⟩ : VehicleRoute))]
        = ([reqD] : Multiset DeliveryRequest) ∧
      routesStops [("v", (⟨"v", [reqD]⟩ : VehicleRoute))]
        = ([reqD] : Multiset DeliveryRequest) :=
  ⟨c2_requests_conserved.1 gD1 h0 "D" [vD] [reqD] 10
      ⟨⟨"D", [("v", ⟨"v", [reqD]⟩)]⟩, (0 : ℚ)⟩ (by with_unfolding_all decide),
    c2_requests_conserved.2 gD1 h0 "D" [vD] [reqD] rng0 0 10
      ⟨⟨"D", [("v", ⟨"v", [reqD]⟩)]⟩, 0⟩ ⟨fun _ => 0, fun _ => 0, 1, 0⟩
      (by with_unfolding_all rfl)⟩

/-! ## Theorems: infinite totals on invalid inputs (claim C7) -/

theorem foldl_dinsert_keys_mono {K V A : Type} [DecidableEq K]
    (key : A → K) (val : A → V) :
    ∀ (xs : List A) (d : List (K × V)) (k : K), k ∈ dKeys d →
      k ∈ dKeys (xs.foldl (fun d x => dinsert d (key x) (val x)) d) := by
  intro xs
  induction xs with
  | nil => intro d k hk; exact hk
  | cons x xs ih =>
    intro d k hk
    simp only [List.foldl_cons]
    refine ih _ k ?_
    rcases hl : dlookup d (key x) with _ | w
    · rw [dKeys_dinsert_absent d _ _ hl]
      exact List.mem_append.mpr (Or.inl hk)
    · rw [dKeys_dinsert_present d _ _ w hl]
      exact hk

theorem foldl_dinsert_keys_mem {K V A : Type} [DecidableEq K]
    (key : A → K) (val : A → V) :
    ∀ (xs : List A) (d : List (K × V)) (x : A), x ∈ xs →
      key x ∈ dKeys (xs.foldl (fun d x => dinsert d (key x) (val x)) d) := by
  intro xs
  induction xs with
  | nil => intro d x hx; exact absurd hx (by simp)
  | cons y xs ih =>
    intro d x hx
    simp only [List.foldl_cons]
    rcases List.mem_cons.mp hx with hx1 | hx1
    · subst hx1
      refine foldl_dinsert_keys_mono key val xs _ (key x) ?_
      rw [mem_dKeys_iff, dlookup_dinsert_self]
      rfl
    · exact ih _ x hx1

theorem dlookup_of_mem_nodup {K V : Type} [DecidableEq K] :
    ∀ (d : List (K × V)), (dKeys d).Nodup → ∀ kv ∈ d, dlookup d kv.1 = some kv.2 := by
  intro d
  induction d with
  | nil => intro _ kv hm; exact absurd hm (by simp)
  | cons kv1 rest ih =>
    intro hnd kv hm
    obtain ⟨k1, v1⟩ := kv1
    rw [show dKeys ((k1, v1) :: rest) = k1 :: dKeys rest from rfl,
      List.nodup_cons] at hnd
    obtain ⟨hk1, hnd'⟩ := hnd
    rcases List.mem_cons.mp hm with hm1 | hm1
    · subst hm1
      simp [dlookup]
    · have hkm : kv.1 ∈ dKeys rest := List.mem_map.mpr ⟨kv, hm1, rfl⟩
      have hne : k1 ≠ kv.1 := fun hh => hk1 (hh ▸ hkm)
      rw [show dlookup ((k1, v1) :: rest) kv.1
          = if k1 = kv.1 then some v1 else dlookup rest kv.1 from rfl,
        if_neg hne]
      exact ih hnd' kv hm1

theorem mem_routesStops (r : DeliveryRequest) :
    ∀ (d : List (String × VehicleRoute)), r ∈ routesStops d →
      ∃ kv ∈ d, r ∈ kv.2.stops := by
  intro d
  induction d with
  | nil => intro hm; exact absurd hm (by simp [routesStops])
  | cons kv rest ih =>
    intro hm
    have hm2 : r ∈ (kv.2.stops : Multiset DeliveryRequest) + routesStops rest := hm
    rcases Multiset.mem_add.mp hm2 with hm3 | hm3
    · exact ⟨kv, List.mem_cons_self _ _, by simpa using hm3⟩
    · rcases ih hm3 with ⟨kv1, hkv1, hr1⟩
      exact ⟨kv1, List.mem_cons_of_mem _ hkv1, hr1⟩

theorem greedyTotal_top (g : CityGraph) (h : NodeId → NodeId → ℚ)
    (depot : NodeId) (routes : List (String × VehicleRoute)) (fuel : Nat) :
    ∀ (vs : List Vehicle) (total : WithTop ℚ),
      greedyTotal g h depot routes fuel vs ⊤ = some total → total = ⊤ := by
  intro vs
  induction vs with
  | nil =>
    intro total hrun
    simp only [greedyTotal, Option.some.injEq] at hrun
    exact hrun.symm
  | cons v vs ih =>
    intro total hrun
    simp only [greedyTotal] at hrun
    split at hrun
    · exact absurd hrun (by simp)
    · split at hrun
      · exact absurd hrun (by simp)
      · next c hc =>
        rw [top_add] at hrun
        exact ih total hrun

theorem greedyTotal_top_of_mem (g : CityGraph) (h : NodeId → NodeId → ℚ)
    (depot : NodeId) (routes : List (String × VehicleRoute)) (fuel : Nat) :
    ∀ (vs : List Vehicle) (acc total : WithTop ℚ),
      greedyTotal g h depot routes fuel vs acc = some total →
      ∀ v ∈ vs, ∀ route, dlookup routes v.id = some route →
        (∀ x, route_cost g h v route.stops depot true fuel = some x → x = ⊤) →
        total = ⊤ := by
  intro vs
  induction vs with
  | nil =>
    intro acc total _ v hv
    exact absurd hv (by simp)
  | cons v1 vs ih =>
    intro acc total hrun v hv route hl hctop
    simp only [greedyTotal] at hrun
    split at hrun
    · exact absurd hrun (by simp)
    · next route1 hl1 =>
      split at hrun
      · exact absurd hrun (by simp)
      · next c hc =>
        rcases List.mem_cons.mp hv with hv1 | hv1
        · subst hv1
          rw [hl] at hl1
          injection hl1 with hl1
          subst hl1
          rw [hctop c hc, add_top] at hrun
          exact greedyTotal_top g h depot routes fuel vs total hrun
        · exact ih _ total hrun v hv1 route hl hctop

theorem rcLoop_bad (g : CityGraph) (h : NodeId → NodeId → ℚ) (depot : NodeId)
    (cap : ℤ) (fuel : Nat) (r : DeliveryRequest) (hd : r.demand ≤ 0) :
    ∀ (stops : List DeliveryRequest) (st : ℚ × NodeId × ℤ)
      (res : Option (ℚ × NodeId × ℤ)), r ∈ stops →
      rcLoop g h depot cap fuel stops st = some res → res = none := by
  intro stops
  induction stops with
  | nil => intro st res hm; exact absurd hm (by simp)
  | cons req rest ih =>
    intro st res hm hrun
    obtain ⟨t, cur, cap_left⟩ := st
    simp only [rcLoop] at hrun
    split at hrun
    · injection hrun with hrun
      exact hrun.symm
    · next hdem =>
      have hmr : r ∈ rest := by
        rcases List.mem_cons.mp hm with hm1 | hm1
        · exact absurd (hm1 ▸ hd) hdem
        · exact hm1
      split at hrun
      · exact absurd hrun (by simp)
      · injection hrun with hrun
        exact hrun.symm
      · split at hrun
        · exact absurd hrun (by simp)
        · injection hrun with hrun
          exact hrun.symm
        · exact ih _ res hmr hrun

theorem route_cost_top_of_bad_stop (g : CityGraph) (h : NodeId → NodeId → ℚ)
    (v : Vehicle) (stops : List DeliveryRequest) (depot : NodeId) (rtd : Bool)
    (fuel : Nat) (r : DeliveryRequest) (hr : r ∈ stops) (hd : r.demand ≤ 0)
    (x : WithTop ℚ) (hrun : route_cost g h v stops depot rtd fuel = some x) :
    x = ⊤ := by
  simp only [route_cost] at hrun
  split at hrun
  · injection hrun with hrun
    exact hrun.symm
  · split at hrun
    · exact absurd hrun (by simp)
    · injection hrun with hrun
      exact hrun.symm
    · next st hres =>
      have hcontra := rcLoop_bad g h depot v.capacity fuel r hd stops _ _ hr hres
      exact absurd hcontra (by simp)

/-- C7 (amended): the planner performs no input validation for non-positive
capacities or demands. When `build_plan` succeeds on such inputs it returns
a normal `PlanCost` whose total time is infinite, rather than raising a
distinguishable rejected-input error (the separately proved counterexample
shows such runs do succeed). -/
theorem c7_amended (g : CityGraph) (h : NodeId → NodeId → ℚ) (depot : NodeId)
    (vehicles : List Vehicle) (requests : List DeliveryRequest) (fuel : Nat)
    (pc : PlanCost)
    (hrun : greedy_build_plan g h depot vehicles requests fuel = some (.ok pc))
    (hbad : (∃ v ∈ vehicles, v.capacity ≤ 0) ∨ (∃ r ∈ requests, r.demand ≤ 0)) :
    pc.total_time = ⊤ := by
  simp only [greedy_build_plan] at hrun
  split at hrun
  · exact absurd hrun (by simp)
  · split at hrun
    · exact absurd hrun (by simp)
    · exact absurd hrun (by simp)
    · next routes hloop =>
      split at hrun
      · exact absurd hrun (by simp)
      · next total htot =>
        injection hrun with hrun
        injection hrun with hrun
        rw [← hrun]
        show total = ⊤
        have hkeys := greedyLoop_keys g h depot vehicles fuel requests.length _
          requests routes hloop
        rcases hbad with ⟨v, hv, hcap⟩ | ⟨r, hr, hdem⟩
        · have hkm : v.id ∈ dKeys routes := by
            rw [hkeys]
            exact foldl_dinsert_keys_mem Vehicle.id
              (fun v => (⟨v.id, []⟩ : VehicleRoute)) vehicles [] v hv
          rcases Option.isSome_iff_exists.mp
            ((mem_dKeys_iff routes v.id).mp hkm) with ⟨route, hroute⟩
          refine greedyTotal_top_of_mem g h depot routes fuel vehicles 0 total
            htot v hv route hroute ?_
          intro x hx
          rw [route_cost_top_of_nonpos_cap g h v route.stops depot true fuel hcap]
            at hx
          injection hx with hx
          exact hx.symm
        · have hnd : (dKeys routes).Nodup := by
            rw [hkeys]
            exact foldl_dinsert_nodup Vehicle.id
              (fun v => (⟨v.id, []⟩ : VehicleRoute)) vehicles [] (by simp [dKeys])
          have hperm := greedyLoop_perm g h depot vehicles fuel requests.length _
            requests routes hloop
          have hzero : routesStops
              (vehicles.foldl (fun d v => dinsert d v.id ⟨v.id, []⟩) []) = 0 :=
            routesStops_eq_zero _
              (foldl_dinsert_values Vehicle.id
                (fun v => (⟨v.id, []⟩ : VehicleRoute))
                (fun vr : VehicleRoute => vr.stops = []) (fun _ => rfl)
                vehicles [] (by simp))
          have hrm : r ∈ routesStops routes := by
            rw [hperm, hzero, zero_add]
            exact Multiset.mem_coe.mpr hr
          rcases mem_routesStops r routes hrm with ⟨kv, hkv, hrstops⟩
          have hlkv : dlookup routes kv.1 = some kv.2 :=
            dlookup_of_mem_nodup routes hnd kv hkv
          have hkmem : kv.1 ∈ dKeys routes :=
            (mem_dKeys_iff routes kv.1).mpr (by simp [hlkv])
          have hkmem0 : kv.1 ∈ dKeys
              (vehicles.foldl
                (fun d v => dinsert d v.id (⟨v.id, []⟩ : VehicleRoute)) []) :=
            hkeys ▸ hkmem
          rcases foldl_dinsert_keys_subset Vehicle.id
              (fun v => (⟨v.id, []⟩ : VehicleRoute)) vehicles [] kv.1 hkmem0 with
            h1 | h1
          · exact absurd h1 (by simp [dKeys])
          · rcases List.mem_map.mp h1 with ⟨v, hv, hvid⟩
            refine greedyTotal_top_of_mem g h depot routes fuel vehicles 0 total
              htot v hv kv.2 (by rw [hvid]; exact hlkv) ?_
            intro x hx
            exact route_cost_top_of_bad_stop g h v kv.2.stops depot true fuel r
              hrstops hdem x hx

theorem c7_witness :
    (⟨⟨"D", [("v", ⟨"v", [reqD0]⟩)]⟩, ⊤⟩ : PlanCost).total_time = ⊤ :=
  c7_amended gD1 h0 "D" [vD] [reqD0] 10 _ (by with_unfolding_all decide)
    (Or.inr ⟨reqD0, by with_unfolding_all decide, by with_unfolding_all decide⟩)

/-! ## Theorems: empty-route vehicles in the simulator (claim C10) -/

theorem simVehicle_nil (g : CityGraph) (h : NodeId → NodeId → ℚ) (fuel : Nat)
    (depot : NodeId) (rtd : Bool) (v : Vehicle) (rng : PyRNG) :
    simVehicle g h fuel depot rtd v [] rng = some (((0 : ℚ) : WithTop ℚ), rng) := by
  cases rtd <;> with_unfolding_all rfl

theorem simRoutes_lookup_frozen (g : CityGraph) (h : NodeId → NodeId → ℚ)
    (fuel : Nat) (depot : NodeId) (rtd : Bool)
    (v_index : List (String × Vehicle)) :
    ∀ (routes : List (String × VehicleRoute))
      (times : List (String × WithTop ℚ)) (rng : PyRNG)
      (times' : List (String × WithTop ℚ)) (rng' : PyRNG),
      simRoutes g h fuel depot rtd v_index routes times rng = some (times', rng') →
      ∀ vid, vid ∉ dKeys routes → dlookup times' vid = dlookup times vid := by
  intro routes
  induction routes with
  | nil =>
    intro times rng times' rng' hrun vid _
    simp only [simRoutes, Option.some.injEq, Prod.mk.injEq] at hrun
    rw [hrun.1]
  | cons kv rest ih =>
    intro times rng times' rng' hrun vid hnm
    obtain ⟨vid1, route1⟩ := kv
    have hne : vid ≠ vid1 := by
      intro hh
      exact hnm (by rw [hh]; exact List.mem_cons_self _ _)
    have hnm' : vid ∉ dKeys rest := fun hh => hnm (List.mem_cons_of_mem _ hh)
    simp only [simRoutes] at hrun
    split at hrun
    · exact absurd hrun (by simp)
    · split at hrun
      · exact absurd hrun (by simp)
      · next t rng1 hsim =>
        rw [ih _ _ _ _ hrun vid hnm']
        exact dlookup_dinsert_ne times vid1 vid t hne.symm

theorem simRoutes_nil_zero (g : CityGraph) (h : NodeId → NodeId → ℚ)
    (fuel : Nat) (depot : NodeId) (v_index : List (String × Vehicle)) :
    ∀ (routes : List (String × VehicleRoute))
      (times : List (String × WithTop ℚ)) (rng : PyRNG)
      (times' : List (String × WithTop ℚ)) (rng' : PyRNG),
      simRoutes g h fuel depot true v_index routes times rng = some (times', rng') →
      (dKeys routes).Nodup →
      ∀ vid route, (vid, route) ∈ routes → route.stops = [] →
        dlookup times' vid = some ((0 : ℚ) : WithTop ℚ) := by
  intro routes
  induction routes with
  | nil =>
    intro times rng times' rng' _ _ vid route hm
    exact absurd hm (by simp)
  | cons kv rest ih =>
    intro times rng times' rng' hrun hnd vid route hm hstops
    obtain ⟨vid1, route1⟩ := kv
    rw [show dKeys ((vid1, route1) :: rest) = vid1 :: dKeys rest from rfl,
      List.nodup_cons] at hnd
    obtain ⟨hk1, hnd'⟩ := hnd
    simp only [simRoutes] at hrun
    split at hrun
    · exact absurd hrun (by simp)
    · split at hrun
      · exact absurd hrun (by simp)
      · next t rng1 hsim =>
        rcases List.mem_cons.mp hm with hm1 | hm1
        · injection hm1 with hv1 hr1
          subst hv1
          rw [← hr1, hstops, simVehicle_nil] at hsim
          injection hsim with hsim
          injection hsim with ht hrng
          rw [simRoutes_lookup_frozen g h fuel depot true v_index rest _ _ _ _
            hrun vid hk1, ← ht]
          exact dlookup_dinsert_self times vid _
        · exact ih _ _ _ _ hrun hnd' vid route hm1 hstops

/-- C10: in `simulate_once` with `return_to_depot = True`, a vehicle whose
route has no stops is walked over no legs at all (its random source is
untouched) and is assigned time exactly 0, regardless of its start node;
its recorded time in the result is 0. By contrast, in the same situation
`GreedyVRPPlanner._route_cost` charges the start-to-depot return leg: on
`gAB` the empty route of a vehicle starting at A with depot B costs 1, not
0. -/
theorem c10_empty_route_zero_time :
    (∀ (g : CityGraph) (h : NodeId → NodeId → ℚ) (fuel : Nat) (depot : NodeId)
      (v : Vehicle) (rng : PyRNG),
      simVehicle g h fuel depot true v [] rng
        = some (((0 : ℚ) : WithTop ℚ), rng)) ∧
    (∀ (g : CityGraph) (h : NodeId → NodeId → ℚ) (plan : Plan)
      (vehicles : List Vehicle) (rng : PyRNG) (fuel : Nat)
      (res : SimulationResult) (rng' : PyRNG) (vid : String)
      (route : VehicleRoute),
      simulate_once g h plan vehicles true rng fuel = some (res, rng') →
      (dKeys plan.routes).Nodup →
      (vid, route) ∈ plan.routes → route.stops = [] →
      dlookup res.vehicle_times vid = some ((0 : ℚ) : WithTop ℚ)) ∧
    (route_cost gAB h0 ⟨"v", 1, "A"⟩ [] "B" true 10
        = some ((1 : ℚ) : WithTop ℚ) ∧
      ((0 : ℚ) : WithTop ℚ) ≠ ((1 : ℚ) : WithTop ℚ)) := by
  refine ⟨fun g h fuel depot v rng => simVehicle_nil g h fuel depot true v rng,
    ?_, by with_unfolding_all decide, by with_unfolding_all decide⟩
  intro g h plan vehicles rng fuel res rng' vid route hrun hnd hm hstops
  simp only [simulate_once] at hrun
  split at hrun
  · exact absurd hrun (by simp)
  · next times rng1 hsr =>
    simp only [Option.some.injEq, Prod.mk.injEq] at hrun
    rw [← hrun.1]
    exact simRoutes_nil_zero g h fuel plan.depot _ plan.routes [] rng times rng1
      hsr hnd vid route hm hstops

theorem c10_witness :
    dlookup (⟨[("v", ((0 : ℚ) : WithTop ℚ))], ((0 : ℚ) : WithTop ℚ),
        ((0 : ℚ) : WithTop ℚ)⟩ : SimulationResult).vehicle_times "v"
      = some ((0 : ℚ) : WithTop ℚ) :=
  c10_empty_route_zero_time.2.1 gAB h0 ⟨"B", [("v", ⟨"v", []⟩)]⟩ [⟨"v", 1, "A"⟩]
    rng0 10 _ rng0 "v" ⟨"v", []⟩ (by with_unfolding_all rfl)
    (by with_unfolding_all decide) (by with_unfolding_all decide) rfl
